import Mathlib

/-!
# EEPROM_AT24CX: paged transfer engine of the 24C32 / 24C64 driver

A shallow embedding of `src/EEPROM_AT24CX.cpp`.

* `word` and `uint16_t` are 16-bit unsigned (the AVR target of the library), `uint8_t` is 8-bit;
  they are natural numbers here with the reduction modulo `2^16` or `2^8` written wherever the
  C code converts or can overflow.
* The `Wire` object is the external two-wire transport.  Every call that touches the bus is
  recorded as an `Event` of the bus trace, and every value `Wire` returns to the driver is
  chosen by a `Transport`, a function of the bus trace so far.  Quantifying over all transports
  covers every behaviour of the bus and of the device.
* The caller's memory is a list of cells, the `buff` pointer is an index into it.
* `State.spans` and `State.calls` are observation logs: the program never reads them.
-/

namespace EEPROM

/-! ## The transport -/

/-- One call of the driver into `Wire` (or `delay`), with the value it returned when there is
one.  `Wire.available` only inspects the receive buffer and is not recorded. -/
inductive Event where
  | beginTransmission (dev : Nat)
  | write (b : Nat)
  | endTransmission (status : Nat)
  | requestFrom (dev : Nat) (quantity : Nat)
  | read (b : Nat)
  | delay (ms : Nat)
  deriving DecidableEq

/-- The behaviour of the bus and of the device behind it: what `Wire.endTransmission`,
`Wire.available` and `Wire.read` return, given everything that happened on the bus so far. -/
structure Transport where
  endTransmission : List Event → Nat
  available : List Event → Nat
  read : List Event → Nat

/-- The machine state the driver acts on. -/
structure State where
  /-- the bus trace, oldest event first -/
  bus : List Event
  /-- the caller's memory, one `uint8_t` per cell -/
  mem : List Nat
  /-- observation log: the `(address, length)` span of every `read_writePage` call,
  after the clipping to the page -/
  spans : List (Nat × Nat)
  /-- observation log: the `(address, length)` arguments of every `read_writeBuffer` call -/
  calls : List (Nat × Nat)
  deriving DecidableEq

/-- The byte `buff[p]` as a `uint8_t`. -/
def State.buff (s : State) (p : Nat) : Nat := s.mem.getD p 0 % 256

/-- The assignment `buff[p] = b`. -/
def State.setBuff (s : State) (p b : Nat) : State := { s with mem := s.mem.set p (b % 256) }

/-- The append of one event to the bus trace. -/
def State.emit (s : State) (e : Event) : State := { s with bus := s.bus ++ [e] }

/-- The append of one entry to the span log. -/
def State.logSpan (s : State) (p : Nat × Nat) : State := { s with spans := s.spans ++ [p] }

/-- The append of one entry to the call log. -/
def State.logCall (s : State) (p : Nat × Nat) : State := { s with calls := s.calls ++ [p] }

/-- `Wire.beginTransmission(dev)`. -/
def Wire.beginTransmission (dev : Nat) (s : State) : State :=
  s.emit (.beginTransmission dev)

/-- `Wire.write(b)`: the argument is converted to `uint8_t`. -/
def Wire.write (b : Nat) (s : State) : State :=
  s.emit (.write (b % 256))

/-- `Wire.endTransmission()`: returns a `uint8_t` status, 0 for success. -/
def Wire.endTransmission (T : Transport) (s : State) : Nat × State :=
  let r := T.endTransmission s.bus % 256
  (r, s.emit (.endTransmission r))

/-- `Wire.requestFrom(dev, quantity)`; the driver ignores the returned count. -/
def Wire.requestFrom (dev quantity : Nat) (s : State) : State :=
  s.emit (.requestFrom dev quantity)

/-- `Wire.available()`. -/
def Wire.available (T : Transport) (s : State) : Nat := T.available s.bus

/-- `Wire.read()`, with the result as the `uint8_t` the driver stores. -/
def Wire.read (T : Transport) (s : State) : Nat × State :=
  let b := T.read s.bus % 256
  (b, s.emit (.read b))

/-- `delay(ms)`. -/
def delay (ms : Nat) (s : State) : State := s.emit (.delay ms)

/-! ## The driver -/

/-- `#define EEPROM__PAGE_SIZE 32`. -/
def EEPROM__PAGE_SIZE : Nat := 32

/-- Modelled from the spec: `BUFFER_LENGTH` of the Wire library, which is not part of this
repository; the glossary's bus buffer capacity, 32 bytes (the source comment on
`EEPROM__RD_BUFFER_SIZE` gives the same value). -/
def BUFFER_LENGTH : Nat := 32

/-- `#define EEPROM__RD_BUFFER_SIZE BUFFER_LENGTH`. -/
def EEPROM__RD_BUFFER_SIZE : Nat := BUFFER_LENGTH

/-- `#define EEPROM__WR_BUFFER_SIZE (BUFFER_LENGTH - 2)`. -/
def EEPROM__WR_BUFFER_SIZE : Nat := BUFFER_LENGTH - 2

/-- The driver object. -/
structure EEPROM_AT24CX where
  m_deviceAddress : Nat
  deriving DecidableEq

/-- The variables of `read_writeBuffer` that its `for` loop changes. -/
structure BufVars where
  address : Nat
  result : Nat
  s : State
  deriving DecidableEq

/-- The body of the `for` loop of `read_writeBuffer` at index `i`; `Sum.inl` is the
`return 0` inside the loop. -/
def forBody (T : Transport) (E : EEPROM_AT24CX) (bp write i : Nat) (v : BufVars) :
    State ⊕ BufVars :=
  if write ≠ 0 then
    if i = EEPROM__WR_BUFFER_SIZE then
      let r := Wire.endTransmission T v.s
      let s2 := delay 10 r.2
      let address := (v.address + EEPROM__WR_BUFFER_SIZE) % 65536
      let s3 := Wire.beginTransmission E.m_deviceAddress s2
      let s4 := Wire.write (address >>> 8) s3
      let s5 := Wire.write (address &&& 0xFF) s4
      if r.1 ≠ 0 then .inl s5
      else .inr ⟨address, r.1, Wire.write (s5.buff (bp + i)) s5⟩
    else .inr ⟨v.address, v.result, Wire.write (v.s.buff (bp + i)) v.s⟩
  else
    if Wire.available T v.s ≠ 0 then
      let r := Wire.read T v.s
      .inr ⟨v.address, v.result, r.2.setBuff (bp + i) r.1⟩
    else .inr v

/-- The loop `for (uint8_t i = ...; i < length; i++)` with `n` iterations left. -/
def forLoop (T : Transport) (E : EEPROM_AT24CX) (bp write : Nat) :
    Nat → Nat → BufVars → State ⊕ BufVars
  | 0, _, v => .inr v
  | n + 1, i, v =>
    match forBody T E bp write i v with
    | .inl s => .inl s
    | .inr v1 => forLoop T E bp write n (i + 1) v1

/-- `EEPROM_AT24CX::read_writeBuffer(address, length, buff, write)`, with `buff` the cell
index `bp`; `address` is a `word` and `length` a `uint8_t`. -/
def read_writeBuffer (T : Transport) (E : EEPROM_AT24CX) (address length bp write : Nat)
    (s : State) : Nat × State :=
  let s0 := s.logCall (address, length)
  let s1 := Wire.beginTransmission E.m_deviceAddress s0
  let s2 := Wire.write (address >>> 8) s1
  let s3 := Wire.write (address &&& 0xFF) s2
  let v0 : BufVars :=
    if write = 0 then
      let r := Wire.endTransmission T s3
      ⟨address, r.1, Wire.requestFrom E.m_deviceAddress length r.2⟩
    else ⟨address, 0, s3⟩
  match forLoop T E bp write length 0 v0 with
  | .inl s4 => (0, s4)
  | .inr v1 =>
    let v2 : BufVars :=
      if write ≠ 0 then
        let r := Wire.endTransmission T v1.s
        ⟨v1.address, r.1, r.2⟩
      else v1
    let s5 := delay 10 v2.s
    if v2.result ≠ 0 then (0, s5) else (length, s5)

/-- The span length `read_writePage` derives from its `length` argument. -/
def pageLength (address length : Nat) : Nat :=
  let bytesRemainingInPage := EEPROM__PAGE_SIZE - address % EEPROM__PAGE_SIZE
  if length > bytesRemainingInPage then bytesRemainingInPage else length

/-- The loop `while (!result && retry)` of `read_writePage`. -/
def retryLoop (T : Transport) (E : EEPROM_AT24CX) (address length bp write : Nat) :
    Nat → Nat → State → Nat × State
  | 0, result, s => (result, s)
  | retry + 1, result, s =>
    if result = 0 then
      let r := read_writeBuffer T E address length bp write s
      retryLoop T E address length bp write retry r.1 r.2
    else (result, s)

/-- `EEPROM_AT24CX::read_writePage(address, length, buff, write)`; `address` is a `word` and
`length` a `uint8_t`. -/
def read_writePage (T : Transport) (E : EEPROM_AT24CX) (address length bp write : Nat)
    (s : State) : Nat × State :=
  let retrySP := 15
  let length1 := pageLength address length
  let s0 := s.logSpan (address, length1)
  retryLoop T E address length1 bp write retrySP 0 s0

/-- The variables of `read_writeBytes` that its `while` loop changes. -/
structure LoopVars where
  length : Nat
  offset : Nat
  bp : Nat
  s : State
  deriving DecidableEq

/-- One test of `while (length)` followed, when it holds, by one run of the loop body:
`Sum.inl` is a `return` (of 0 inside the loop, of 1 after it), `Sum.inr` the variables at the
next test.  The `word` length becomes the `uint8_t` parameter of `read_writePage`. -/
def whileStep (T : Transport) (E : EEPROM_AT24CX) (address write : Nat) (v : LoopVars) :
    (Nat × State) ⊕ LoopVars :=
  if v.length = 0 then .inl (1, v.s)
  else
    let r := read_writePage T E ((address + v.offset) % 65536) (v.length % 256) v.bp write v.s
    if r.1 = 0 then .inl (0, r.2)
    else .inr ⟨(v.length + 65536 - r.1) % 65536, (v.offset + r.1) % 65536, v.bp + r.1, r.2⟩

/-- The `while` loop of `read_writeBytes` run for at most `fuel` steps. -/
def whileLoop (T : Transport) (E : EEPROM_AT24CX) (address write : Nat) :
    Nat → LoopVars → Option (Nat × State)
  | 0, _ => none
  | fuel + 1, v =>
    match whileStep T E address write v with
    | .inl r => some r
    | .inr v1 => whileLoop T E address write fuel v1

/-- `EEPROM_AT24CX::read_writeBytes(address, length, buff, write)`, with `buff` the cell
index `bp`; `address` and `length` are `word`s.  The loop gets `length + 1` steps, one more
than it can use. -/
def read_writeBytes (T : Transport) (E : EEPROM_AT24CX) (address length bp write : Nat)
    (s : State) : Option (Nat × State) :=
  whileLoop T E address write (length + 1) ⟨length, 0, bp, s⟩

/-! ## Definitions used by the statements and their proofs -/

/-- The state after `k` consecutive calls of `read_writeBuffer` with the same arguments:
the state in which attempt number `k + 1` on a span starts. -/
def attempts (T : Transport) (E : EEPROM_AT24CX) (address length bp write : Nat) :
    Nat → State → State
  | 0, s => s
  | k + 1, s => attempts T E address length bp write k
      (read_writeBuffer T E address length bp write s).2

/-- The variables of `read_writeBytes` at the test of `while (length)` number `k + 1`;
`none` when the function has returned before. -/
def loopState (T : Transport) (E : EEPROM_AT24CX) (address write : Nat) :
    Nat → LoopVars → Option LoopVars
  | 0, v => some v
  | k + 1, v =>
    match whileStep T E address write v with
    | .inl _ => none
    | .inr v1 => loopState T E address write k v1

/-- A transport on which every transaction close succeeds. -/
def Transport.allSucceed (T : Transport) : Prop := ∀ tr, T.endTransmission tr % 256 = 0

/-- A transport that acknowledges everything and never has a byte to deliver. -/
def quietBus : Transport := ⟨fun _ => 0, fun _ => 0, fun _ => 0⟩

/-- A transport that refuses the first `k` transaction closes and accepts the later ones:
a device that stays busy for a while. -/
def busyBus (k : Nat) : Transport :=
  ⟨fun tr => if (tr.filter (fun e => e matches .endTransmission _)).length < k then 2 else 0,
    fun _ => 0, fun _ => 0⟩

/-- A transport that accepts the first `k` transaction closes and refuses the later ones. -/
def failingBus (k : Nat) : Transport :=
  ⟨fun tr => if (tr.filter (fun e => e matches .endTransmission _)).length < k then 0 else 2,
    fun _ => 0, fun _ => 0⟩

/-- A transport that accepts every close and delivers the bytes `data`, one per `read`,
and then nothing more. -/
def shortBus (data : List Nat) : Transport :=
  ⟨fun _ => 0,
    fun tr => data.length - (tr.filter (fun e => e matches .read _)).length,
    fun tr => data.getD (tr.filter (fun e => e matches .read _)).length 0⟩

/-- State with a longer bus trace. -/
def State.send (s : State) (es : List Event) : State := { s with bus := s.bus ++ es }

/-- The `write` events of the cells `buff[i], .., buff[i + n - 1]`. -/
def dataWrites (mem : List Nat) (bp i n : Nat) : List Event :=
  (List.range' i n).map (fun j => Event.write (mem.getD (bp + j) 0 % 256))

/-- The events that open a write transaction at device address `a`. -/
def txOpen (E : EEPROM_AT24CX) (a : Nat) : List Event :=
  [.beginTransmission E.m_deviceAddress, .write (a / 256 % 256), .write (a % 256)]

/-- The result and the bus segment of one `read_writeBuffer` call in write direction,
in closed form. -/
def writeSeg (T : Transport) (E : EEPROM_AT24CX) (a n bp : Nat) (s : State) :
    Nat × List Event :=
  if n ≤ 30 then
    let tr := txOpen E a ++ dataWrites s.mem bp 0 n
    let r := T.endTransmission (s.bus ++ tr) % 256
    (if r ≠ 0 then 0 else n, tr ++ [.endTransmission r, .delay 10])
  else
    let tr1 := txOpen E a ++ dataWrites s.mem bp 0 30
    let r1 := T.endTransmission (s.bus ++ tr1) % 256
    let tr2 := tr1 ++ [.endTransmission r1, .delay 10] ++ txOpen E ((a + 30) % 65536)
    if r1 ≠ 0 then (0, tr2)
    else
      let tr3 := tr2 ++ dataWrites s.mem bp 30 (n - 30)
      let r2 := T.endTransmission (s.bus ++ tr3) % 256
      (if r2 ≠ 0 then 0 else n, tr3 ++ [.endTransmission r2, .delay 10])

/-- The bytes `buff[i], .., buff[i + n - 1]`. -/
def bytesOf (mem : List Nat) (bp i n : Nat) : List Nat :=
  (List.range' i n).map (fun j => mem.getD (bp + j) 0 % 256)

/-- The bytes `bs` paired with the device addresses `a, a + 1, ..` they go to. -/
def place (a : Nat) : List Nat → List (Nat × Nat)
  | [] => []
  | b :: bs => (a, b) :: place (a + 1) bs

/-- The data bytes of one transaction with their device addresses, from the bytes queued in
it: the first two are the address, high byte first, and a data byte goes to that address plus
its position among the data bytes. -/
def txData : List Nat → List (Nat × Nat)
  | hi :: lo :: data => place (hi * 256 + lo) data
  | _ => []

/-- The `(device address, byte)` pairs of the data bytes of the transactions that a bus trace
closes with success, in trace order; `q` holds the bytes queued in the open transaction. -/
def committedAux : Option (List Nat) → List Event → List (Nat × Nat)
  | _, [] => []
  | q, e :: es =>
    match e with
    | .beginTransmission _ => committedAux (some []) es
    | .write b => committedAux (q.map (fun l => l ++ [b])) es
    | .endTransmission r =>
      (match q with
        | some l => if r = 0 then txData l else []
        | none => []) ++ committedAux none es
    | _ => committedAux q es

/-- The data a bus trace delivers to the device: the `(device address, byte)` pairs of the
transactions it closes with success. -/
def committed (tr : List Event) : List (Nat × Nat) := committedAux none tr

/-- A bus segment that is empty or starts with `beginTransmission`. -/
def BeginsTx (tr : List Event) : Prop :=
  tr = [] ∨ ∃ d tl, tr = .beginTransmission d :: tl

/-- The pair `p` is delivered by the last attempt on the span dispatched at the loop test
`v`: some attempt `K + 1 ≤ 15` on that span returns non-zero after `K` attempts that returned
0, every transaction close in its bus segment `seg` reports success, and `p` is among the
data the segment delivers. -/
def SentByLastAttempt (T : Transport) (E : EEPROM_AT24CX) (address write : Nat) (v : LoopVars)
    (p : Nat × Nat) : Prop :=
  ∃ K seg, K < 15 ∧
    (∀ j, j < K →
      (read_writeBuffer T E ((address + v.offset) % 65536)
        (pageLength ((address + v.offset) % 65536) (v.length % 256)) v.bp write
        (attempts T E ((address + v.offset) % 65536)
          (pageLength ((address + v.offset) % 65536) (v.length % 256)) v.bp write j
          (v.s.logSpan ((address + v.offset) % 65536,
            pageLength ((address + v.offset) % 65536) (v.length % 256))))).1 = 0) ∧
    (read_writeBuffer T E ((address + v.offset) % 65536)
        (pageLength ((address + v.offset) % 65536) (v.length % 256)) v.bp write
        (attempts T E ((address + v.offset) % 65536)
          (pageLength ((address + v.offset) % 65536) (v.length % 256)) v.bp write K
          (v.s.logSpan ((address + v.offset) % 65536,
            pageLength ((address + v.offset) % 65536) (v.length % 256))))).1 ≠ 0 ∧
    (read_writeBuffer T E ((address + v.offset) % 65536)
        (pageLength ((address + v.offset) % 65536) (v.length % 256)) v.bp write
        (attempts T E ((address + v.offset) % 65536)
          (pageLength ((address + v.offset) % 65536) (v.length % 256)) v.bp write K
          (v.s.logSpan ((address + v.offset) % 65536,
            pageLength ((address + v.offset) % 65536) (v.length % 256))))).2.bus
      = (attempts T E ((address + v.offset) % 65536)
          (pageLength ((address + v.offset) % 65536) (v.length % 256)) v.bp write K
          (v.s.logSpan ((address + v.offset) % 65536,
            pageLength ((address + v.offset) % 65536) (v.length % 256)))).bus ++ seg ∧
    (∀ r, Event.endTransmission r ∈ seg → r = 0) ∧
    p ∈ committed seg

/-- The memory after the bytes `bs` are stored in the cells `p, p + 1, ..`. -/
def storeBytes (mem : List Nat) (p : Nat) : List Nat → List Nat
  | [] => mem
  | b :: bs => storeBytes (mem.set p (b % 256)) (p + 1) bs

/-- The ideal device of the round-trip property, as it stands after some bus traffic. -/
structure Device where
  /-- the stored byte at each address -/
  cell : Nat → Nat
  /-- the address the next read starts from -/
  pointer : Nat
  /-- the bytes queued since the last `beginTransmission`, when a transaction is open -/
  queue : Option (List Nat)
  /-- the bytes clocked in by `requestFrom` and not read yet -/
  rx : List Nat

/-- The cells after the bytes `data` are stored from address `a` on. -/
def Device.store (cell : Nat → Nat) (a : Nat) (data : List Nat) : Nat → Nat :=
  fun x => if a ≤ x ∧ x < a + data.length then data.getD (x - a) 0 else cell x

/-- The effect of one bus event on the ideal device: a transaction closed with success sets
the address pointer from its two address bytes and stores its data bytes from there on, a
read request delivers the stored bytes from the address pointer on. -/
def Device.step (d : Device) : Event → Device
  | .beginTransmission _ => { d with queue := some [] }
  | .write b => { d with queue := d.queue.map (fun q => q ++ [b]) }
  | .endTransmission r =>
    match d.queue with
    | some (hi :: lo :: data) =>
      if r = 0 then
        { cell := Device.store d.cell (hi * 256 + lo) data,
          pointer := hi * 256 + lo + data.length, queue := none, rx := d.rx }
      else { d with queue := none }
    | _ => { d with queue := none }
  | .requestFrom _ n =>
    { d with rx := (List.range n).map (fun j => d.cell (d.pointer + j)),
             pointer := d.pointer + n }
  | .read _ => { d with rx := d.rx.tail }
  | .delay _ => d

/-- The ideal device after the bus trace `tr`, started with the cells `cell`. -/
def Device.after (cell : Nat → Nat) (tr : List Event) : Device :=
  tr.foldl Device.step ⟨cell, 0, none, []⟩

/-- The transport of the ideal device: never busy, every close succeeds, and the bytes
available are those the last read request clocked in. -/
def idealBus (cell : Nat → Nat) : Transport :=
  ⟨fun _ => 0, fun tr => (Device.after cell tr).rx.length,
    fun tr => (Device.after cell tr).rx.headD 0⟩

/-- Every `endTransmission` of the trace is directly followed by `delay(10)`. -/
def delayAfterClose : List Event → Bool
  | [] => true
  | e :: es =>
    (match e with
      | .endTransmission _ => es.head? == some (.delay 10)
      | _ => true) && delayAfterClose es

/-- Every transaction the trace opens is closed by an `endTransmission` before the next
`beginTransmission` and before the end of the trace; `op` tells whether a transaction is open
at the start. -/
def allClosed : Bool → List Event → Bool
  | op, [] => !op
  | op, e :: es =>
    match e with
    | .beginTransmission _ => !op && allClosed true es
    | .endTransmission _ => allClosed false es
    | _ => allClosed op es

/-- Every transaction of the trace queues at most `BUFFER_LENGTH` bytes, the two address
bytes and at most `EEPROM__WR_BUFFER_SIZE` data bytes, and every `requestFrom` asks for at
most `EEPROM__RD_BUFFER_SIZE` bytes; `c` is the number of bytes queued so far in the current
transaction. -/
def chunksBounded : Nat → List Event → Bool
  | _, [] => true
  | c, e :: es =>
    match e with
    | .beginTransmission _ => chunksBounded 0 es
    | .write _ => decide (c + 1 ≤ 2 + EEPROM__WR_BUFFER_SIZE) && chunksBounded (c + 1) es
    | .requestFrom _ n => decide (n ≤ EEPROM__RD_BUFFER_SIZE) && chunksBounded c es
    | _ => chunksBounded c es

/-- The greedy page split in the words of the specification: while bytes remain, the next
span starts at `(address + offset) mod 2^16` and takes the smaller of the remaining length and
the bytes left in the page of its start; `fuel` bounds the number of spans. -/
def greedySplit (address : Nat) : Nat → Nat → Nat → List (Nat × Nat)
  | 0, _, _ => []
  | fuel + 1, offset, remaining =>
    if remaining = 0 then []
    else
      let start := (address + offset) % 65536
      let len := min remaining (32 - start % 32)
      (start, len) :: greedySplit address fuel (offset + len) (remaining - len)

/-- An empty machine state over the given memory. -/
def State.init (mem : List Nat) : State := ⟨[], mem, [], []⟩

/-! ## Basic facts -/

@[simp] theorem emit_bus (s : State) (e : Event) : (s.emit e).bus = s.bus ++ [e] := rfl
@[simp] theorem emit_mem (s : State) (e : Event) : (s.emit e).mem = s.mem := rfl
@[simp] theorem emit_spans (s : State) (e : Event) : (s.emit e).spans = s.spans := rfl
@[simp] theorem emit_calls (s : State) (e : Event) : (s.emit e).calls = s.calls := rfl
@[simp] theorem emit_buff (s : State) (e : Event) (p : Nat) : (s.emit e).buff p = s.buff p := rfl
@[simp] theorem logSpan_bus (s : State) (p : Nat × Nat) : (s.logSpan p).bus = s.bus := rfl
@[simp] theorem logSpan_mem (s : State) (p : Nat × Nat) : (s.logSpan p).mem = s.mem := rfl
@[simp] theorem logSpan_spans (s : State) (p : Nat × Nat) :
    (s.logSpan p).spans = s.spans ++ [p] := rfl
@[simp] theorem logSpan_calls (s : State) (p : Nat × Nat) : (s.logSpan p).calls = s.calls := rfl
@[simp] theorem logCall_bus (s : State) (p : Nat × Nat) : (s.logCall p).bus = s.bus := rfl
@[simp] theorem logCall_mem (s : State) (p : Nat × Nat) : (s.logCall p).mem = s.mem := rfl
@[simp] theorem logCall_spans (s : State) (p : Nat × Nat) : (s.logCall p).spans = s.spans := rfl
@[simp] theorem logCall_calls (s : State) (p : Nat × Nat) :
    (s.logCall p).calls = s.calls ++ [p] := rfl
@[simp] theorem setBuff_bus (s : State) (p b : Nat) : (s.setBuff p b).bus = s.bus := rfl
@[simp] theorem setBuff_spans (s : State) (p b : Nat) : (s.setBuff p b).spans = s.spans := rfl
@[simp] theorem setBuff_calls (s : State) (p b : Nat) : (s.setBuff p b).calls = s.calls := rfl
@[simp] theorem setBuff_mem (s : State) (p b : Nat) :
    (s.setBuff p b).mem = s.mem.set p (b % 256) := rfl

theorem buff_lt (s : State) (p : Nat) : s.buff p < 256 := Nat.mod_lt _ (by decide)

@[simp] theorem buff_mod (s : State) (p : Nat) : s.buff p % 256 = s.buff p :=
  Nat.mod_eq_of_lt (buff_lt s p)

theorem wr_size : EEPROM__WR_BUFFER_SIZE = 30 := rfl

theorem page_size : EEPROM__PAGE_SIZE = 32 := rfl

theorem word_hi (a : Nat) : a >>> 8 = a / 256 := by
  simp [Nat.shiftRight_eq_div_pow]

theorem word_lo (a : Nat) : a &&& 0xFF = a % 256 := by
  simpa using Nat.and_pow_two_sub_one_eq_mod a 8

@[simp] theorem send_bus (s : State) (es : List Event) : (s.send es).bus = s.bus ++ es := rfl
@[simp] theorem send_mem (s : State) (es : List Event) : (s.send es).mem = s.mem := rfl
@[simp] theorem send_spans (s : State) (es : List Event) : (s.send es).spans = s.spans := rfl
@[simp] theorem send_calls (s : State) (es : List Event) : (s.send es).calls = s.calls := rfl
@[simp] theorem send_buff (s : State) (es : List Event) (p : Nat) :
    (s.send es).buff p = s.buff p := rfl
theorem emit_eq_send (s : State) (e : Event) : s.emit e = s.send [e] := rfl
@[simp] theorem send_send (s : State) (es fs : List Event) :
    (s.send es).send fs = s.send (es ++ fs) := by
  simp [State.send, List.append_assoc]
@[simp] theorem send_nil (s : State) : s.send [] = s := by
  simp [State.send]

theorem forLoop_write (T : Transport) (E : EEPROM_AT24CX) (bp write : Nat) (hw : write ≠ 0)
    (n : Nat) : ∀ (i : Nat) (v : BufVars),
      (i + n ≤ 30 ∨ 30 < i) →
      forLoop T E bp write n i v
        = .inr ⟨v.address, v.result, v.s.send (dataWrites v.s.mem bp i n)⟩ := by
  induction n with
  | zero => intro i v _; simp [forLoop, dataWrites]
  | succ n ih =>
    intro i v h
    have hi : i ≠ 30 := by omega
    have h2 : i + 1 + n ≤ 30 ∨ 30 < i + 1 := by omega
    simp only [forLoop, forBody, hw, hi, wr_size, ne_eq, not_false_eq_true, if_true, if_false]
    rw [ih _ _ h2]
    simp [Wire.write, emit_eq_send, dataWrites, List.range'_succ, State.buff]

theorem forLoop_add (T : Transport) (E : EEPROM_AT24CX) (bp write : Nat) (n1 n2 : Nat) :
    ∀ (i : Nat) (v : BufVars),
      forLoop T E bp write (n1 + n2) i v
        = match forLoop T E bp write n1 i v with
          | .inl s => .inl s
          | .inr v1 => forLoop T E bp write n2 (i + n1) v1 := by
  induction n1 with
  | zero => intro i v; simp [forLoop]
  | succ n ih =>
    intro i v
    rw [show n + 1 + n2 = (n + n2) + 1 by omega]
    simp only [forLoop]
    cases h : forBody T E bp write i v with
    | inl s => simp
    | inr v1 =>
      simp only
      rw [ih]
      rw [show i + 1 + n = i + (n + 1) by omega]

theorem open_eq (E : EEPROM_AT24CX) (a : Nat) (s : State) :
    Wire.write (a &&& 0xFF) (Wire.write (a >>> 8) (Wire.beginTransmission E.m_deviceAddress s))
      = s.send (txOpen E a) := by
  simp [Wire.write, Wire.beginTransmission, emit_eq_send, txOpen, word_hi, word_lo]

theorem forLoop_write_long (T : Transport) (E : EEPROM_AT24CX) (bp write : Nat) (hw : write ≠ 0)
    (m a res : Nat) (s : State) :
    forLoop T E bp write (30 + (m + 1)) 0 ⟨a, res, s⟩
      = if T.endTransmission (s.bus ++ dataWrites s.mem bp 0 30) % 256 ≠ 0 then
          .inl (s.send (dataWrites s.mem bp 0 30
            ++ [.endTransmission (T.endTransmission (s.bus ++ dataWrites s.mem bp 0 30) % 256),
                .delay 10] ++ txOpen E ((a + 30) % 65536)))
        else
          .inr ⟨(a + 30) % 65536, 0, s.send (dataWrites s.mem bp 0 30
            ++ [.endTransmission 0, .delay 10] ++ txOpen E ((a + 30) % 65536)
            ++ dataWrites s.mem bp 30 (m + 1))⟩ := by
  rw [forLoop_add, forLoop_write T E bp write hw _ 0 _ (Or.inl (by omega))]
  simp only [Nat.zero_add, forLoop, forBody, hw, wr_size, ne_eq, not_false_eq_true, if_true,
    open_eq]
  by_cases hr : T.endTransmission (s.bus ++ dataWrites s.mem bp 0 30) % 256 = 0
  · simp only [Wire.endTransmission, send_bus, hr, not_true_eq_false, if_false]
    rw [forLoop_write T E bp write hw _ _ _ (Or.inr (by omega))]
    simp [Wire.write, delay, emit_eq_send, State.buff, dataWrites, List.range'_succ]
  · simp [Wire.endTransmission, hr, delay, emit_eq_send]

theorem read_writeBuffer_write (T : Transport) (E : EEPROM_AT24CX) (a n bp write : Nat)
    (hw : write ≠ 0) (s : State) :
    read_writeBuffer T E a n bp write s
      = ((writeSeg T E a n bp s).1,
          ⟨s.bus ++ (writeSeg T E a n bp s).2, s.mem, s.spans, s.calls ++ [(a, n)]⟩) := by
  unfold read_writeBuffer writeSeg
  simp only [open_eq, hw, if_false, ne_eq, not_false_eq_true, if_true]
  by_cases hn : n ≤ 30
  · rw [forLoop_write T E bp write hw n 0 _ (Or.inl (by omega))]
    simp only [hn, if_true, Wire.endTransmission, delay, emit_eq_send, send_send, send_bus,
      send_mem]
    split_ifs <;> simp_all [State.send]
  · obtain ⟨m, rfl⟩ : ∃ m, n = 30 + (m + 1) := ⟨n - 31, by omega⟩
    rw [forLoop_write_long T E bp write hw]
    simp only [hn, if_false, send_bus, send_mem, List.append_assoc]
    by_cases hr : T.endTransmission (s.bus ++ (txOpen E a ++ dataWrites s.mem bp 0 30)) % 256 = 0
    · simp only [hr, not_true_eq_false, if_false, Wire.endTransmission, delay, emit_eq_send,
        send_send, send_bus, send_mem, List.append_assoc, Nat.add_sub_cancel_left]
      split_ifs <;> simp_all [State.send]
    · simp [hr, State.send]

theorem writeSeg_result (T : Transport) (E : EEPROM_AT24CX) (a n bp : Nat) (s : State) :
    (writeSeg T E a n bp s).1 = 0 ∨ (writeSeg T E a n bp s).1 = n := by
  unfold writeSeg
  dsimp only
  split_ifs <;> simp

theorem writeSeg_ok (T : Transport) (hT : T.allSucceed) (E : EEPROM_AT24CX) (a n bp : Nat)
    (s : State) : (writeSeg T E a n bp s).1 = n := by
  unfold writeSeg
  have h := fun tr => hT tr
  simp only [h, ne_eq, not_true_eq_false, if_false]
  split_ifs <;> rfl

theorem writeSeg_head (T : Transport) (E : EEPROM_AT24CX) (a n bp : Nat) (s : State) :
    ∃ seg, (writeSeg T E a n bp s).2 = .beginTransmission E.m_deviceAddress :: seg := by
  unfold writeSeg
  dsimp only
  split_ifs <;> simp [txOpen]

theorem forLoop_read (T : Transport) (E : EEPROM_AT24CX) (bp : Nat) (n : Nat) :
    ∀ (i : Nat) (v : BufVars), ∃ s1 seg,
      forLoop T E bp 0 n i v = .inr ⟨v.address, v.result, s1⟩ ∧
      s1.spans = v.s.spans ∧ s1.calls = v.s.calls ∧ s1.bus = v.s.bus ++ seg := by
  induction n with
  | zero => intro i v; exact ⟨v.s, [], by simp [forLoop]⟩
  | succ n ih =>
    intro i v
    simp only [forLoop, forBody, ne_eq, not_true_eq_false, if_false]
    by_cases ha : Wire.available T v.s = 0
    · simp only [ha, not_true_eq_false, if_false]
      exact ih _ _
    · simp only [ha, not_false_eq_true, if_true]
      obtain ⟨s1, seg, h1, h2, h3, h4⟩ := ih (i + 1)
        ⟨v.address, v.result, (Wire.read T v.s).2.setBuff (bp + i) (Wire.read T v.s).1⟩
      refine ⟨s1, Event.read (Wire.read T v.s).1 :: seg, h1, ?_, ?_, ?_⟩
      · simpa [Wire.read] using h2
      · simpa [Wire.read] using h3
      · simpa [Wire.read] using h4

/-- What every `read_writeBuffer` call does, whatever the direction and the transport: one
more entry in the call log, the span log untouched, a bus trace that grows by a segment
starting with `beginTransmission`, and a result that is 0 or the length. -/
theorem read_writeBuffer_frame (T : Transport) (E : EEPROM_AT24CX) (a n bp write : Nat)
    (s : State) :
    (read_writeBuffer T E a n bp write s).2.calls = s.calls ++ [(a, n)] ∧
    (read_writeBuffer T E a n bp write s).2.spans = s.spans ∧
    (∃ seg, (read_writeBuffer T E a n bp write s).2.bus
        = s.bus ++ .beginTransmission E.m_deviceAddress :: seg) ∧
    ((read_writeBuffer T E a n bp write s).1 = 0 ∨ (read_writeBuffer T E a n bp write s).1 = n) ∧
    (T.allSucceed → (read_writeBuffer T E a n bp write s).1 = n) := by
  by_cases hw : write = 0
  · subst hw
    unfold read_writeBuffer
    simp only [open_eq, if_true]
    obtain ⟨s1, seg, h1, h2, h3, h4⟩ := forLoop_read T E bp n 0
      ⟨a, (Wire.endTransmission T
            ((s.logCall (a, n)).send (txOpen E a))).1,
        Wire.requestFrom E.m_deviceAddress n (Wire.endTransmission T
            ((s.logCall (a, n)).send (txOpen E a))).2⟩
    rw [h1]
    simp only [ne_eq, not_true_eq_false, if_false]
    simp only [Wire.requestFrom, Wire.endTransmission, emit_calls, emit_spans, emit_bus,
      send_calls, send_spans, send_bus] at h2 h3 h4
    refine ⟨?_, ?_, ?_, ?_, ?_⟩
    · split_ifs <;> simp [delay, h3]
    · split_ifs <;> simp [delay, h2]
    · refine ⟨[.write (a / 256 % 256), .write (a % 256),
          .endTransmission (T.endTransmission (s.bus ++ txOpen E a) % 256),
          .requestFrom E.m_deviceAddress n] ++ seg ++ [.delay 10], ?_⟩
      split_ifs <;> simp [delay, h4, txOpen]
    · split_ifs <;> simp
    · intro hT
      simp [Wire.endTransmission, hT _]
  · rw [read_writeBuffer_write T E a n bp write hw]
    refine ⟨rfl, rfl, ?_, writeSeg_result T E a n bp s, fun hT => writeSeg_ok T hT E a n bp s⟩
    obtain ⟨seg, h⟩ := writeSeg_head T E a n bp s
    exact ⟨seg, by simp [h]⟩

theorem pageLength_le (a l : Nat) : pageLength a l ≤ l := by
  unfold pageLength
  simp only [page_size]
  split_ifs <;> omega

theorem pageLength_le_page (a l : Nat) : a % 32 + pageLength a l ≤ 32 := by
  unfold pageLength
  simp only [page_size]
  have := Nat.mod_lt a (show 0 < 32 by decide)
  split_ifs <;> omega

theorem pageLength_eq_min (a l : Nat) : pageLength a l = min l (32 - a % 32) := by
  unfold pageLength
  simp only [page_size]
  split_ifs <;> omega

theorem pageLength_pos (a l : Nat) (h : l ≠ 0) : pageLength a l ≠ 0 := by
  rw [pageLength_eq_min]
  have := Nat.mod_lt a (show 0 < 32 by decide)
  omega

theorem attempts_succ (T : Transport) (E : EEPROM_AT24CX) (a n bp write k : Nat) (s : State) :
    attempts T E a n bp write (k + 1) s
      = (read_writeBuffer T E a n bp write (attempts T E a n bp write k s)).2 := by
  induction k generalizing s with
  | zero => rfl
  | succ k ih =>
    have h := ih (read_writeBuffer T E a n bp write s).2
    simp only [attempts] at h ⊢
    exact h

theorem attempts_calls (T : Transport) (E : EEPROM_AT24CX) (a n bp write k : Nat) (s : State) :
    (attempts T E a n bp write k s).calls = s.calls ++ List.replicate k (a, n) := by
  induction k with
  | zero => simp [attempts]
  | succ k ih =>
    rw [attempts_succ, (read_writeBuffer_frame T E a n bp write _).1, ih,
      List.replicate_succ', List.append_assoc]

theorem attempts_spans (T : Transport) (E : EEPROM_AT24CX) (a n bp write k : Nat) (s : State) :
    (attempts T E a n bp write k s).spans = s.spans := by
  induction k with
  | zero => simp [attempts]
  | succ k ih => rw [attempts_succ, (read_writeBuffer_frame T E a n bp write _).2.1, ih]

/-- Attempts only append to the bus trace. -/
theorem attempts_bus (T : Transport) (E : EEPROM_AT24CX) (a n bp write : Nat) :
    ∀ (k : Nat) (s : State), ∃ tr, (attempts T E a n bp write k s).bus = s.bus ++ tr := by
  intro k
  induction k with
  | zero => intro s; exact ⟨[], by simp [attempts]⟩
  | succ k ih =>
    intro s
    obtain ⟨tr, h⟩ := ih (read_writeBuffer T E a n bp write s).2
    obtain ⟨seg, hseg⟩ := (read_writeBuffer_frame T E a n bp write s).2.2.1
    refine ⟨.beginTransmission E.m_deviceAddress :: seg ++ tr, ?_⟩
    simp only [attempts]
    rw [h, hseg, List.append_assoc]

/-- The retry loop when the first `K` attempts fail and the next one succeeds. -/
theorem retryLoop_absorb (T : Transport) (E : EEPROM_AT24CX) (a n bp write : Nat) :
    ∀ (retry K : Nat) (s : State), K < retry →
      (∀ j, j < K → (read_writeBuffer T E a n bp write (attempts T E a n bp write j s)).1 = 0) →
      (read_writeBuffer T E a n bp write (attempts T E a n bp write K s)).1 ≠ 0 →
      retryLoop T E a n bp write retry 0 s
        = ((read_writeBuffer T E a n bp write (attempts T E a n bp write K s)).1,
            attempts T E a n bp write (K + 1) s) := by
  intro retry
  induction retry with
  | zero => intro K s h; omega
  | succ retry ih =>
    intro K s hK hfail hok
    cases K with
    | zero =>
      simp only [attempts] at hok ⊢
      simp only [retryLoop, if_true]
      cases retry with
      | zero => simp [retryLoop]
      | succ r => simp [retryLoop, hok]
    | succ K =>
      have h0 := hfail 0 (by omega)
      simp only [attempts] at h0
      simp only [retryLoop, if_true, h0]
      have := ih K (read_writeBuffer T E a n bp write s).2 (by omega)
        (fun j hj => by simpa [attempts] using hfail (j + 1) (by omega))
        (by simpa [attempts] using hok)
      simpa [attempts] using this

/-- The retry loop when every attempt fails. -/
theorem retryLoop_exhaust (T : Transport) (E : EEPROM_AT24CX) (a n bp write : Nat) :
    ∀ (retry : Nat) (s : State),
      (∀ j, j < retry →
        (read_writeBuffer T E a n bp write (attempts T E a n bp write j s)).1 = 0) →
      retryLoop T E a n bp write retry 0 s = (0, attempts T E a n bp write retry s) := by
  intro retry
  induction retry with
  | zero => intro s _; rfl
  | succ retry ih =>
    intro s hfail
    have h0 := hfail 0 (by omega)
    simp only [attempts] at h0
    simp only [retryLoop, if_true, h0]
    have := ih (read_writeBuffer T E a n bp write s).2
      (fun j hj => by simpa [attempts] using hfail (j + 1) (by omega))
    simpa [attempts] using this

/-- The retry loop returns 0 or the span length; it leaves the span log alone and logs
between 1 and `retry` calls. -/
theorem retryLoop_frame (T : Transport) (E : EEPROM_AT24CX) (a n bp write : Nat) :
    ∀ (retry : Nat) (s : State),
      ((retryLoop T E a n bp write retry 0 s).1 = 0 ∨
        (retryLoop T E a n bp write retry 0 s).1 = n) ∧
      (retryLoop T E a n bp write retry 0 s).2.spans = s.spans ∧
      ∃ k, k ≤ retry ∧
        (retryLoop T E a n bp write retry 0 s).2 = attempts T E a n bp write k s := by
  intro retry
  induction retry with
  | zero => intro s; exact ⟨Or.inl rfl, rfl, 0, le_refl _, rfl⟩
  | succ retry ih =>
    intro s
    simp only [retryLoop, if_true]
    by_cases h0 : (read_writeBuffer T E a n bp write s).1 = 0
    · rw [h0]
      obtain ⟨h1, h2, k, hk, h3⟩ := ih (read_writeBuffer T E a n bp write s).2
      refine ⟨h1, ?_, k + 1, by omega, ?_⟩
      · rw [h2, (read_writeBuffer_frame T E a n bp write s).2.1]
      · rw [h3]; rfl
    · have hres : (read_writeBuffer T E a n bp write s).1 = n := by
        rcases (read_writeBuffer_frame T E a n bp write s).2.2.2.1 with h | h
        · exact absurd h h0
        · exact h
      have hstop : retryLoop T E a n bp write retry (read_writeBuffer T E a n bp write s).1
          (read_writeBuffer T E a n bp write s).2
          = ((read_writeBuffer T E a n bp write s).1, (read_writeBuffer T E a n bp write s).2) := by
        cases retry with
        | zero => rfl
        | succ r => simp [retryLoop, h0]
      rw [hstop]
      refine ⟨Or.inr hres, (read_writeBuffer_frame T E a n bp write s).2.1, 1, by omega, rfl⟩

theorem read_writePage_frame (T : Transport) (E : EEPROM_AT24CX) (a l bp write : Nat)
    (s : State) :
    ((read_writePage T E a l bp write s).1 = 0 ∨
      (read_writePage T E a l bp write s).1 = pageLength a l) ∧
    (read_writePage T E a l bp write s).2.spans = s.spans ++ [(a, pageLength a l)] ∧
    ∃ k, k ≤ 15 ∧ (read_writePage T E a l bp write s).2
      = attempts T E a (pageLength a l) bp write k (s.logSpan (a, pageLength a l)) := by
  unfold read_writePage
  obtain ⟨h1, h2, h3⟩ := retryLoop_frame T E a (pageLength a l) bp write 15
    (s.logSpan (a, pageLength a l))
  exact ⟨h1, by simpa using h2, h3⟩

/-- A step of the loop that does not return makes the remaining length smaller. -/
theorem whileStep_length (T : Transport) (E : EEPROM_AT24CX) (address write : Nat)
    (v v1 : LoopVars) (h : whileStep T E address write v = .inr v1) :
    v1.length < v.length := by
  unfold whileStep at h
  dsimp only at h
  by_cases h0 : v.length = 0
  · simp [h0] at h
  by_cases h1 : (read_writePage T E ((address + v.offset) % 65536) (v.length % 256) v.bp write
      v.s).1 = 0
  · simp [h0, h1] at h
  simp only [h0, h1, if_false, Sum.inr.injEq] at h
  subst h
  simp only
  rcases (read_writePage_frame T E ((address + v.offset) % 65536) (v.length % 256) v.bp
    write v.s).1 with hr | hr
  · exact absurd hr h1
  · have h2 := pageLength_le ((address + v.offset) % 65536) (v.length % 256)
    have h3 := Nat.mod_le v.length 256
    rw [hr] at h1 ⊢
    have : v.length + 65536 - pageLength ((address + v.offset) % 65536) (v.length % 256)
        = (v.length - pageLength ((address + v.offset) % 65536) (v.length % 256)) + 65536 := by
      omega
    rw [this, Nat.add_mod_right]
    have := Nat.mod_le (v.length - pageLength ((address + v.offset) % 65536) (v.length % 256))
      65536
    omega

theorem loopState_length (T : Transport) (E : EEPROM_AT24CX) (address write : Nat) :
    ∀ (k : Nat) (v0 v : LoopVars), loopState T E address write k v0 = some v →
      v.length + k ≤ v0.length := by
  intro k
  induction k with
  | zero => intro v0 v h; simp [loopState] at h; subst h; omega
  | succ k ih =>
    intro v0 v h
    simp only [loopState] at h
    cases hs : whileStep T E address write v0 with
    | inl r => rw [hs] at h; simp at h
    | inr v1 =>
      rw [hs] at h
      have := ih v1 v h
      have := whileStep_length T E address write v0 v1 hs
      omega

/-- The loop returns as soon as its fuel exceeds the remaining length. -/
theorem whileLoop_isSome (T : Transport) (E : EEPROM_AT24CX) (address write : Nat) :
    ∀ (fuel : Nat) (v : LoopVars), v.length < fuel →
      (whileLoop T E address write fuel v).isSome = true := by
  intro fuel
  induction fuel with
  | zero => intro v h; omega
  | succ fuel ih =>
    intro v h
    simp only [whileLoop]
    cases hs : whileStep T E address write v with
    | inl r => rfl
    | inr v1 =>
      have := whileStep_length T E address write v v1 hs
      exact ih v1 (by omega)

/-- The fuel of `read_writeBytes` is enough: the call always returns. -/
theorem read_writeBytes_isSome (T : Transport) (E : EEPROM_AT24CX)
    (address length bp write : Nat) (s : State) :
    (read_writeBytes T E address length bp write s).isSome = true :=
  whileLoop_isSome T E address write (length + 1) ⟨length, 0, bp, s⟩ (Nat.lt_succ_self length)

/-- The loop run from the start equals the loop run from any test it reaches. -/
theorem whileLoop_loopState (T : Transport) (E : EEPROM_AT24CX) (address write : Nat) :
    ∀ (k fuel : Nat) (v0 v : LoopVars), loopState T E address write k v0 = some v →
      whileLoop T E address write (fuel + k) v0 = whileLoop T E address write fuel v := by
  intro k
  induction k with
  | zero => intro fuel v0 v h; simp [loopState] at h; subst h; rfl
  | succ k ih =>
    intro fuel v0 v h
    simp only [loopState] at h
    cases hs : whileStep T E address write v0 with
    | inl r => rw [hs] at h; simp at h
    | inr v1 =>
      rw [hs] at h
      rw [show fuel + (k + 1) = (fuel + k) + 1 by omega]
      simp only [whileLoop, hs]
      exact ih fuel v1 v h

theorem read_writeBytes_loopState (T : Transport) (E : EEPROM_AT24CX)
    (address length bp write k : Nat) (s : State) (v : LoopVars)
    (h : loopState T E address write k ⟨length, 0, bp, s⟩ = some v) :
    ∃ fuel, read_writeBytes T E address length bp write s
      = whileLoop T E address write (fuel + 1) v := by
  have hl := loopState_length T E address write k _ v h
  simp only at hl
  refine ⟨length - k, ?_⟩
  unfold read_writeBytes
  rw [show length + 1 = (length - k + 1) + k by omega]
  exact whileLoop_loopState T E address write k _ _ v h

theorem loopState_step (T : Transport) (E : EEPROM_AT24CX) (address write k : Nat)
    (v v1 : LoopVars) (h : whileStep T E address write v = .inr v1) :
    loopState T E address write (k + 1) v = loopState T E address write k v1 := by
  simp only [loopState, h]

theorem pageLength_zero (a : Nat) : pageLength a 0 = 0 := by
  have := pageLength_le a 0
  omega

/-- A span of length 0 can only fail: `read_writeBuffer` returns its length. -/
theorem read_writeBuffer_zero (T : Transport) (E : EEPROM_AT24CX) (a bp write : Nat) (s : State) :
    (read_writeBuffer T E a 0 bp write s).1 = 0 := by
  rcases (read_writeBuffer_frame T E a 0 bp write s).2.2.2.1 with h | h <;> exact h

/-- A step of the loop whose 16-bit remaining length is a non-zero multiple of 256: the
`uint8_t` parameter of `read_writePage` is 0, all 15 attempts return 0 and the function
returns 0. -/
theorem whileStep_truncated (T : Transport) (E : EEPROM_AT24CX) (address write : Nat)
    (v : LoopVars) (h0 : v.length ≠ 0) (h256 : v.length % 256 = 0) :
    whileStep T E address write v
      = .inl (0, attempts T E ((address + v.offset) % 65536) 0 v.bp write 15
          (v.s.logSpan ((address + v.offset) % 65536, 0))) := by
  have hpage : read_writePage T E ((address + v.offset) % 65536) (v.length % 256) v.bp write v.s
      = (0, attempts T E ((address + v.offset) % 65536) 0 v.bp write 15
          (v.s.logSpan ((address + v.offset) % 65536, 0))) := by
    unfold read_writePage
    rw [h256, pageLength_zero]
    exact retryLoop_exhaust T E _ 0 v.bp write 15 _
      (fun j _ => read_writeBuffer_zero T E _ _ _ _)
  simp only [whileStep, h0, if_false, hpage, if_true]

/-- The call with length 256, on any transport. -/
theorem read_writeBytes_256 (T : Transport) (E : EEPROM_AT24CX) (address bp write : Nat)
    (s : State) :
    read_writeBytes T E address 256 bp write s
      = some (0, attempts T E (address % 65536) 0 bp write 15
          (s.logSpan (address % 65536, 0))) := by
  unfold read_writeBytes
  rw [whileLoop, whileStep_truncated T E address write _ (by simp) (by simp)]
  simp

/-- A step of the loop on a transport that accepts every close, for a remaining length that
is not a multiple of 256: one attempt, and the loop goes on. -/
theorem whileStep_ok (T : Transport) (hT : T.allSucceed) (E : EEPROM_AT24CX)
    (address write : Nat) (v : LoopVars) (h256 : v.length % 256 ≠ 0) :
    whileStep T E address write v
      = .inr ⟨(v.length + 65536
            - pageLength ((address + v.offset) % 65536) (v.length % 256)) % 65536,
          (v.offset + pageLength ((address + v.offset) % 65536) (v.length % 256)) % 65536,
          v.bp + pageLength ((address + v.offset) % 65536) (v.length % 256),
          (read_writeBuffer T E ((address + v.offset) % 65536)
            (pageLength ((address + v.offset) % 65536) (v.length % 256)) v.bp write
            (v.s.logSpan ((address + v.offset) % 65536,
              pageLength ((address + v.offset) % 65536) (v.length % 256)))).2⟩ := by
  have h0 : v.length ≠ 0 := by
    intro h; rw [h] at h256; exact h256 rfl
  have hn := pageLength_pos ((address + v.offset) % 65536) (v.length % 256) h256
  have hres := (read_writeBuffer_frame T E ((address + v.offset) % 65536)
    (pageLength ((address + v.offset) % 65536) (v.length % 256)) v.bp write
    (v.s.logSpan ((address + v.offset) % 65536,
      pageLength ((address + v.offset) % 65536) (v.length % 256)))).2.2.2.2 hT
  have hpage : read_writePage T E ((address + v.offset) % 65536) (v.length % 256) v.bp write v.s
      = (pageLength ((address + v.offset) % 65536) (v.length % 256),
          (read_writeBuffer T E ((address + v.offset) % 65536)
            (pageLength ((address + v.offset) % 65536) (v.length % 256)) v.bp write
            (v.s.logSpan ((address + v.offset) % 65536,
              pageLength ((address + v.offset) % 65536) (v.length % 256)))).2) := by
    unfold read_writePage
    have := retryLoop_absorb T E ((address + v.offset) % 65536)
      (pageLength ((address + v.offset) % 65536) (v.length % 256)) v.bp write 15 0
      (v.s.logSpan ((address + v.offset) % 65536,
        pageLength ((address + v.offset) % 65536) (v.length % 256))) (by omega)
      (fun j hj => absurd hj (Nat.not_lt_zero j))
      (by simp only [attempts]; rw [hres]; exact hn)
    simp only [attempts] at this
    rw [hres] at this
    exact this
  simp only [whileStep, h0, if_false, hpage, hn]

/-- The step `whileStep_ok` with the arithmetic of the new loop variables carried out. -/
theorem whileStep_ok_at (T : Transport) (hT : T.allSucceed) (E : EEPROM_AT24CX)
    (address write len off bp : Nat) (s : State) (a n len1 off1 : Nat)
    (ha : (address + off) % 65536 = a) (hn : pageLength a (len % 256) = n) (hn0 : n ≠ 0)
    (hl : (len + 65536 - n) % 65536 = len1) (ho : (off + n) % 65536 = off1) :
    whileStep T E address write ⟨len, off, bp, s⟩
      = .inr ⟨len1, off1, bp + n, (read_writeBuffer T E a n bp write (s.logSpan (a, n))).2⟩ := by
  subst ha hn hl ho
  have h256 : len % 256 ≠ 0 := by
    intro h
    rw [h, pageLength_zero] at hn0
    exact hn0 rfl
  exact whileStep_ok T hT E address write ⟨len, off, bp, s⟩ h256

theorem storeBytes_length (bs : List Nat) : ∀ (mem : List Nat) (p : Nat),
    (storeBytes mem p bs).length = mem.length := by
  induction bs with
  | nil => intro mem p; rfl
  | cons b bs ih => intro mem p; simp [storeBytes, ih]

theorem storeBytes_outside (bs : List Nat) : ∀ (mem : List Nat) (p q : Nat),
    (q < p ∨ p + bs.length ≤ q) → (storeBytes mem p bs).getD q 0 = mem.getD q 0 := by
  induction bs with
  | nil => intro mem p q _; rfl
  | cons b bs ih =>
    intro mem p q h
    simp only [storeBytes, List.length_cons] at h ⊢
    rw [ih _ _ _ (by omega)]
    have hne : p ≠ q := by omega
    simp [List.getD_eq_getElem?_getD, List.getElem?_set, hne]

theorem storeBytes_inside (bs : List Nat) : ∀ (mem : List Nat) (p k : Nat) (hk : k < bs.length),
    p + bs.length ≤ mem.length → (storeBytes mem p bs).getD (p + k) 0 = bs[k] % 256 := by
  induction bs with
  | nil => intro mem p k hk; simp at hk
  | cons b bs ih =>
    intro mem p k hk hlen
    simp only [List.length_cons] at hk hlen
    simp only [storeBytes]
    cases k with
    | zero =>
      rw [Nat.add_zero, storeBytes_outside bs _ _ _ (Or.inl (by omega))]
      have hp : p < mem.length := by omega
      simp [List.getD_eq_getElem?_getD, List.getElem?_set, hp]
    | succ k =>
      have := ih (mem.set p (b % 256)) (p + 1) k (by omega) (by simp; omega)
      rw [show p + (k + 1) = p + 1 + k by omega, this]
      simp

/-- With nothing available the read loop changes nothing. -/
theorem forLoop_read_idle (T : Transport) (E : EEPROM_AT24CX) (bp : Nat) (n : Nat) :
    ∀ (i : Nat) (v : BufVars), T.available v.s.bus = 0 →
      forLoop T E bp 0 n i v = .inr v := by
  induction n with
  | zero => intro i v _; rfl
  | succ n ih =>
    intro i v h
    simp only [forLoop, forBody, ne_eq, not_true_eq_false, if_false, Wire.available, h]
    exact ih (i + 1) v h

/-- The read loop when the transport delivers exactly the bytes `rx`. -/
theorem forLoop_read_rx (T : Transport) (E : EEPROM_AT24CX) (bp : Nat) (rx : List Nat) :
    ∀ (n i : Nat) (v : BufVars), rx.length ≤ n →
      (∀ j, j < rx.length → T.available (v.s.bus ++ (rx.take j).map Event.read) ≠ 0) →
      (∀ j (hj : j < rx.length),
        T.read (v.s.bus ++ (rx.take j).map Event.read) % 256 = rx[j]) →
      T.available (v.s.bus ++ rx.map Event.read) = 0 →
      forLoop T E bp 0 n i v
        = .inr ⟨v.address, v.result,
            ⟨v.s.bus ++ rx.map Event.read, storeBytes v.s.mem (bp + i) rx, v.s.spans,
              v.s.calls⟩⟩ := by
  induction rx with
  | nil =>
    intro n i v _ _ _ hstop
    simp only [List.map_nil, List.append_nil] at hstop
    rw [forLoop_read_idle T E bp n i v hstop]
    simp [storeBytes]
  | cons b bs ih =>
    intro n i v hn havail hread hstop
    cases n with
    | zero => simp at hn
    | succ n =>
      have ha0 := havail 0 (by simp)
      have hr0 := hread 0 (by simp)
      simp only [List.take_zero, List.map_nil, List.append_nil, List.getElem_cons_zero]
        at ha0 hr0
      simp only [forLoop, forBody, ne_eq, not_true_eq_false, if_false, Wire.available, ha0,
        not_false_eq_true, if_true, Wire.read, hr0]
      rw [ih n (i + 1) _ (by simpa using hn)]
      · simp [storeBytes, Nat.add_assoc]
      · intro j hj
        have := havail (j + 1) (by simpa using hj)
        simpa using this
      · intro j hj
        have := hread (j + 1) (by simpa using hj)
        simpa using this
      · simpa using hstop

/-- One `read_writeBuffer` call in read direction when the address-selecting transaction
closes with success and the transport then delivers exactly the bytes `rx`. -/
theorem read_writeBuffer_short (T : Transport) (E : EEPROM_AT24CX) (a n bp : Nat) (s : State)
    (rx : List Nat) (hm : rx.length ≤ n)
    (hclose : T.endTransmission (s.bus ++ txOpen E a) % 256 = 0)
    (havail : ∀ j, j < rx.length →
      T.available (s.bus ++ txOpen E a
        ++ [.endTransmission 0, .requestFrom E.m_deviceAddress n]
        ++ (rx.take j).map Event.read) ≠ 0)
    (hread : ∀ j (hj : j < rx.length),
      T.read (s.bus ++ txOpen E a ++ [.endTransmission 0, .requestFrom E.m_deviceAddress n]
        ++ (rx.take j).map Event.read) % 256 = rx[j])
    (hstop : T.available (s.bus ++ txOpen E a
        ++ [.endTransmission 0, .requestFrom E.m_deviceAddress n]
        ++ rx.map Event.read) = 0) :
    read_writeBuffer T E a n bp 0 s
      = (n, ⟨s.bus ++ txOpen E a ++ [.endTransmission 0, .requestFrom E.m_deviceAddress n]
              ++ rx.map Event.read ++ [.delay 10],
            storeBytes s.mem bp rx, s.spans, s.calls ++ [(a, n)]⟩) := by
  unfold read_writeBuffer
  simp only [open_eq, if_true, Wire.endTransmission, send_bus, logCall_bus, hclose,
    Wire.requestFrom, emit_eq_send, send_send]
  rw [forLoop_read_rx T E bp rx n 0 _ hm]
  · simp [delay, emit_eq_send, State.send]
  · intro j hj
    have := havail j hj
    simpa [List.append_assoc] using this
  · intro j hj
    have := hread j hj
    simpa [List.append_assoc] using this
  · simpa [List.append_assoc] using hstop

theorem dataWrites_eq (mem : List Nat) (bp i n : Nat) :
    dataWrites mem bp i n = (bytesOf mem bp i n).map Event.write := by
  simp [dataWrites, bytesOf]

theorem bytesOf_length (mem : List Nat) (bp i n : Nat) : (bytesOf mem bp i n).length = n := by
  simp [bytesOf]

theorem bytesOf_getElem (mem : List Nat) (bp i n j : Nat) (h : j < (bytesOf mem bp i n).length) :
    (bytesOf mem bp i n)[j] = mem.getD (bp + (i + j)) 0 % 256 := by
  simp [bytesOf]

theorem bytesOf_append (mem : List Nat) (bp i n m : Nat) :
    bytesOf mem bp i n ++ bytesOf mem bp (i + n) m = bytesOf mem bp i (n + m) := by
  have := List.range'_append i n m 1
  simp only [Nat.one_mul] at this
  simp only [bytesOf, ← List.map_append, this, Nat.add_comm m n]

theorem place_nil (a : Nat) : place a [] = [] := rfl

theorem place_cons (a b : Nat) (bs : List Nat) :
    place a (b :: bs) = (a, b) :: place (a + 1) bs := rfl

theorem committedAux_nil (q : Option (List Nat)) : committedAux q [] = [] := by
  cases q <;> rfl

theorem committedAux_write (q : Option (List Nat)) (b : Nat) (es : List Event) :
    committedAux q (.write b :: es) = committedAux (q.map (fun l => l ++ [b])) es := rfl

theorem committedAux_end (q : List Nat) (r : Nat) (es : List Event) :
    committedAux (some q) (.endTransmission r :: es)
      = (if r = 0 then txData q else []) ++ committedAux none es := rfl

theorem committedAux_end_none (r : Nat) (es : List Event) :
    committedAux none (.endTransmission r :: es) = committedAux none es := rfl

theorem committedAux_delay (q : Option (List Nat)) (ms : Nat) (es : List Event) :
    committedAux q (.delay ms :: es) = committedAux q es := rfl

theorem committedAux_read (q : Option (List Nat)) (b : Nat) (es : List Event) :
    committedAux q (.read b :: es) = committedAux q es := rfl

theorem committedAux_request (q : Option (List Nat)) (d n : Nat) (es : List Event) :
    committedAux q (.requestFrom d n :: es) = committedAux q es := rfl

theorem committedAux_begin0 (q : Option (List Nat)) (d : Nat) (es : List Event) :
    committedAux q (.beginTransmission d :: es) = committedAux (some []) es := rfl

theorem place_append (xs ys : List Nat) : ∀ a : Nat,
    place a (xs ++ ys) = place a xs ++ place (a + xs.length) ys := by
  induction xs with
  | nil => intro a; simp [place_nil]
  | cons x xs ih =>
    intro a
    simp only [List.cons_append, place_cons, List.length_cons]
    rw [ih, show a + 1 + xs.length = a + (xs.length + 1) by omega]

theorem mem_place (bs : List Nat) : ∀ (a : Nat) (p : Nat × Nat),
    p ∈ place a bs ↔ ∃ j, ∃ (h : j < bs.length), p = (a + j, bs[j]) := by
  induction bs with
  | nil => intro a p; simp [place_nil]
  | cons b bs ih =>
    intro a p
    simp only [place_cons, List.mem_cons, ih, List.length_cons]
    constructor
    · rintro (h | ⟨j, hj, h⟩)
      · exact ⟨0, by omega, by simpa using h⟩
      · exact ⟨j + 1, by omega, by rw [h]; simp; omega⟩
    · rintro ⟨j, hj, h⟩
      cases j with
      | zero => left; simpa using h
      | succ j =>
        right
        exact ⟨j, by omega, by rw [h]; simp; omega⟩

theorem committedAux_writes (ws : List Nat) : ∀ (q : List Nat) (es : List Event),
    committedAux (some q) (ws.map Event.write ++ es) = committedAux (some (q ++ ws)) es := by
  induction ws with
  | nil => intro q es; simp
  | cons w ws ih =>
    intro q es
    simp only [List.map_cons, List.cons_append, committedAux_write, Option.map_some']
    rw [ih]
    simp

theorem committedAux_begin (q : Option (List Nat)) (d : Nat) (es : List Event) :
    committedAux q (.beginTransmission d :: es) = committed (.beginTransmission d :: es) := by
  simp [committed, committedAux_begin0]

theorem committedAux_beginsTx (q : Option (List Nat)) (fs : List Event) (h : BeginsTx fs) :
    committedAux q fs = committed fs := by
  rcases h with h | ⟨d, tl, h⟩
  · subst h; simp [committed, committedAux_nil]
  · subst h; exact committedAux_begin q d tl

theorem committedAux_append (es fs : List Event) (h : BeginsTx fs) :
    ∀ q, committedAux q (es ++ fs) = committedAux q es ++ committed fs := by
  induction es with
  | nil => intro q; simpa [committedAux_nil] using committedAux_beginsTx q fs h
  | cons e es ih =>
    intro q
    cases e with
    | beginTransmission d => simp only [List.cons_append, committedAux_begin0, ih]
    | write b => simp only [List.cons_append, committedAux_write, ih]
    | endTransmission r =>
      cases q with
      | none => simp only [List.cons_append, committedAux_end_none, ih]
      | some l => simp only [List.cons_append, committedAux_end, ih, List.append_assoc]
    | requestFrom d n => simp only [List.cons_append, committedAux_request, ih]
    | read b => simp only [List.cons_append, committedAux_read, ih]
    | delay ms => simp only [List.cons_append, committedAux_delay, ih]

theorem committed_append (es fs : List Event) (h : BeginsTx fs) :
    committed (es ++ fs) = committed es ++ committed fs :=
  committedAux_append es fs h none

theorem beginsTx_append (es fs : List Event) (h1 : BeginsTx es) (h2 : BeginsTx fs) :
    BeginsTx (es ++ fs) := by
  rcases h1 with h | ⟨d, tl, h⟩
  · subst h; simpa using h2
  · subst h; exact Or.inr ⟨d, tl ++ fs, rfl⟩

theorem word_bytes (a : Nat) (h : a < 65536) : a / 256 % 256 * 256 + a % 256 = a := by
  omega

/-- The data delivered by one transaction: opened at `a`, carrying the bytes `ws`, closed
with status `r`. -/
theorem committedAux_tx (q : Option (List Nat)) (E : EEPROM_AT24CX) (a : Nat) (ha : a < 65536)
    (ws : List Nat) (r : Nat) (rest : List Event) :
    committedAux q (txOpen E a ++ (ws.map Event.write ++ .endTransmission r :: rest))
      = (if r = 0 then place a ws else []) ++ committedAux none rest := by
  simp only [txOpen, List.cons_append, List.nil_append, committedAux_begin0,
    committedAux_write, Option.map_some']
  rw [committedAux_writes]
  simp only [List.nil_append, List.cons_append, committedAux_end, txData, word_bytes a ha]

theorem committedAux_open (q : Option (List Nat)) (E : EEPROM_AT24CX) (a : Nat) :
    committedAux q (txOpen E a) = [] := by
  simp [txOpen, committedAux_begin0, committedAux_write, committedAux_nil]

theorem committed_short (E : EEPROM_AT24CX) (a : Nat) (ha : a < 65536) (ws : List Nat)
    (r : Nat) :
    committed (txOpen E a ++ ws.map Event.write ++ [.endTransmission r, .delay 10])
      = if r = 0 then place a ws else [] := by
  unfold committed
  rw [List.append_assoc]
  show committedAux none (txOpen E a ++ (ws.map Event.write ++
    .endTransmission r :: [.delay 10])) = _
  rw [committedAux_tx none E a ha, committedAux_delay, committedAux_nil, List.append_nil]

theorem committed_long_fail (E : EEPROM_AT24CX) (a a2 : Nat) (ha : a < 65536) (ws : List Nat)
    (r : Nat) (hr : r ≠ 0) :
    committed (txOpen E a ++ ws.map Event.write ++ [.endTransmission r, .delay 10]
      ++ txOpen E a2) = [] := by
  unfold committed
  rw [List.append_assoc, List.append_assoc]
  simp only [List.cons_append, List.nil_append]
  rw [committedAux_tx none E a ha, committedAux_delay, committedAux_open]
  simp [hr]

theorem committed_long (E : EEPROM_AT24CX) (a a2 : Nat) (ha : a < 65536) (ha2 : a2 < 65536)
    (ws1 ws2 : List Nat) (r : Nat) :
    committed (txOpen E a ++ ws1.map Event.write ++ [.endTransmission 0, .delay 10]
      ++ txOpen E a2 ++ ws2.map Event.write ++ [.endTransmission r, .delay 10])
      = place a ws1 ++ if r = 0 then place a2 ws2 else [] := by
  unfold committed
  simp only [List.append_assoc, List.cons_append, List.nil_append]
  rw [committedAux_tx none E a ha, committedAux_delay, committedAux_tx none E a2 ha2,
    committedAux_delay, committedAux_nil, List.append_nil]
  simp

theorem txOpen_beginsTx (E : EEPROM_AT24CX) (a : Nat) (tl : List Event) :
    BeginsTx (txOpen E a ++ tl) :=
  Or.inr ⟨E.m_deviceAddress, _, rfl⟩

/-- What one write attempt delivers to the device, for a span inside one page: never
anything but bytes of the span at their own addresses, and all of them when the attempt
succeeds, in which case every close of the attempt reported success. -/
theorem writeSeg_committed (T : Transport) (E : EEPROM_AT24CX) (a n bp : Nat) (u : State)
    (ha : a < 65536) (hpage : a % 32 + n ≤ 32) :
    BeginsTx (writeSeg T E a n bp u).2 ∧
    (∀ p, p ∈ committed (writeSeg T E a n bp u).2 → p ∈ place a (bytesOf u.mem bp 0 n)) ∧
    ((writeSeg T E a n bp u).1 ≠ 0 →
      committed (writeSeg T E a n bp u).2 = place a (bytesOf u.mem bp 0 n) ∧
      ∀ r, Event.endTransmission r ∈ (writeSeg T E a n bp u).2 → r = 0) := by
  unfold writeSeg
  by_cases hn : n ≤ 30
  · simp only [hn, if_true, dataWrites_eq]
    generalize T.endTransmission (u.bus ++ (txOpen E a ++
      (bytesOf u.mem bp 0 n).map Event.write)) % 256 = r
    rw [committed_short E a ha]
    refine ⟨?_, ?_, ?_⟩
    · rw [List.append_assoc]; exact txOpen_beginsTx E a _
    · intro p hp
      by_cases hr : r = 0
      · simpa [hr] using hp
      · simp [hr] at hp
    · intro hres
      have hr : r = 0 := by
        by_contra hr
        simp [hr] at hres
      subst hr
      refine ⟨by simp, ?_⟩
      intro r hmem
      simp [txOpen] at hmem
      exact hmem
  · have ha2 : (a + 30) % 65536 = a + 30 := by omega
    have ha3 : a + 30 < 65536 := by omega
    simp only [hn, if_false, dataWrites_eq, ha2]
    generalize T.endTransmission (u.bus ++ (txOpen E a ++
      (bytesOf u.mem bp 0 30).map Event.write)) % 256 = r1
    have hsplit : bytesOf u.mem bp 0 n = bytesOf u.mem bp 0 30 ++ bytesOf u.mem bp 30 (n - 30) := by
      have := bytesOf_append u.mem bp 0 30 (n - 30)
      rw [Nat.zero_add, show 30 + (n - 30) = n by omega] at this
      exact this.symm
    by_cases hr1 : r1 = 0
    · subst hr1
      simp only [ne_eq, not_true_eq_false, if_false]
      generalize T.endTransmission (u.bus ++ (txOpen E a ++
        (bytesOf u.mem bp 0 30).map Event.write ++ [Event.endTransmission 0, Event.delay 10]
        ++ txOpen E (a + 30) ++ (bytesOf u.mem bp 30 (n - 30)).map Event.write)) % 256 = r2
      rw [committed_long E a (a + 30) ha ha3, hsplit, place_append, bytesOf_length]
      refine ⟨?_, ?_, ?_⟩
      · simp only [List.append_assoc]; exact txOpen_beginsTx E a _
      · intro p hp
        by_cases hr : r2 = 0
        · simpa [hr] using hp
        · simp only [hr, if_false, List.append_nil] at hp
          exact List.mem_append_left _ hp
      · intro hres
        have hr : r2 = 0 := by
          by_contra hr
          simp [hr] at hres
        subst hr
        refine ⟨by simp, ?_⟩
        intro r hmem
        simp [txOpen] at hmem
        exact hmem
    · simp only [ne_eq, hr1, not_false_eq_true, if_true]
      rw [committed_long_fail E a (a + 30) ha _ r1 hr1]
      refine ⟨?_, ?_, ?_⟩
      · simp only [List.append_assoc]; exact txOpen_beginsTx E a _
      · intro p hp; simp at hp
      · intro hres; exact absurd trivial hres

/-- Repeated write attempts on a span inside one page leave the memory alone and deliver
nothing but bytes of the span at their own addresses. -/
theorem attempts_write (T : Transport) (E : EEPROM_AT24CX) (a n bp write : Nat)
    (hw : write ≠ 0) (ha : a < 65536) (hpage : a % 32 + n ≤ 32) :
    ∀ (k : Nat) (u : State),
      (attempts T E a n bp write k u).mem = u.mem ∧
      ∃ tr, (attempts T E a n bp write k u).bus = u.bus ++ tr ∧ BeginsTx tr ∧
        ∀ p, p ∈ committed tr → p ∈ place a (bytesOf u.mem bp 0 n) := by
  intro k
  induction k with
  | zero =>
    intro u
    exact ⟨rfl, [], by simp [attempts], Or.inl rfl, by simp [committed, committedAux_nil]⟩
  | succ k ih =>
    intro u
    obtain ⟨hb, hsub, _⟩ := writeSeg_committed T E a n bp u ha hpage
    obtain ⟨hm, tr, hbus, hbt, hc⟩ := ih (read_writeBuffer T E a n bp write u).2
    rw [read_writeBuffer_write T E a n bp write hw u] at hm hbus hc
    simp only at hm hbus hc
    simp only [attempts]
    rw [read_writeBuffer_write T E a n bp write hw u]
    refine ⟨hm, (writeSeg T E a n bp u).2 ++ tr, by rw [hbus, List.append_assoc],
      beginsTx_append _ _ hb hbt, ?_⟩
    intro p hp
    rw [committed_append _ _ hbt, List.mem_append] at hp
    rcases hp with hp | hp
    · exact hsub p hp
    · exact hc p hp

/-- A retry loop that returns non-zero has seen some failures followed by one success. -/
theorem retryLoop_success (T : Transport) (E : EEPROM_AT24CX) (a n bp write : Nat) :
    ∀ (retry : Nat) (s : State), (retryLoop T E a n bp write retry 0 s).1 ≠ 0 →
      ∃ K, K < retry ∧
        (∀ j, j < K → (read_writeBuffer T E a n bp write (attempts T E a n bp write j s)).1 = 0) ∧
        (read_writeBuffer T E a n bp write (attempts T E a n bp write K s)).1 ≠ 0 ∧
        retryLoop T E a n bp write retry 0 s
          = ((read_writeBuffer T E a n bp write (attempts T E a n bp write K s)).1,
              attempts T E a n bp write (K + 1) s) := by
  intro retry
  induction retry with
  | zero => intro s h; exact absurd rfl h
  | succ retry ih =>
    intro s h
    by_cases h0 : (read_writeBuffer T E a n bp write s).1 = 0
    · have hstep : retryLoop T E a n bp write (retry + 1) 0 s
          = retryLoop T E a n bp write retry 0 (read_writeBuffer T E a n bp write s).2 := by
        simp only [retryLoop, if_true, h0]
      rw [hstep] at h
      obtain ⟨K, hK, hfail, hok, heq⟩ := ih _ h
      refine ⟨K + 1, by omega, ?_, hok, by rw [hstep, heq]; rfl⟩
      intro j hj
      cases j with
      | zero => exact h0
      | succ j => exact hfail j (by omega)
    · have hfail : ∀ j, j < 0 →
          (read_writeBuffer T E a n bp write (attempts T E a n bp write j s)).1 = 0 :=
        fun j hj => absurd hj (Nat.not_lt_zero j)
      exact ⟨0, by omega, hfail, h0,
        retryLoop_absorb T E a n bp write (retry + 1) 0 s (by omega) hfail h0⟩

/-- What `read_writePage` does in write direction: the memory is not touched, the bus
delivers nothing but bytes of the span at their own addresses, and when the result is not 0
the last attempt delivers all of them in transactions closed with success. -/
theorem read_writePage_write (T : Transport) (E : EEPROM_AT24CX) (a l bp write : Nat)
    (hw : write ≠ 0) (ha : a < 65536) (s : State) :
    (read_writePage T E a l bp write s).2.mem = s.mem ∧
    (∃ tr, (read_writePage T E a l bp write s).2.bus = s.bus ++ tr ∧ BeginsTx tr ∧
      ∀ p, p ∈ committed tr → p ∈ place a (bytesOf s.mem bp 0 (pageLength a l))) ∧
    ((read_writePage T E a l bp write s).1 ≠ 0 →
      ∃ K seg, K < 15 ∧
        (∀ j, j < K →
          (read_writeBuffer T E a (pageLength a l) bp write
            (attempts T E a (pageLength a l) bp write j (s.logSpan (a, pageLength a l)))).1 = 0) ∧
        (read_writeBuffer T E a (pageLength a l) bp write
            (attempts T E a (pageLength a l) bp write K (s.logSpan (a, pageLength a l)))).1 ≠ 0 ∧
        (read_writeBuffer T E a (pageLength a l) bp write
            (attempts T E a (pageLength a l) bp write K (s.logSpan (a, pageLength a l)))).2.bus
          = (attempts T E a (pageLength a l) bp write K (s.logSpan (a, pageLength a l))).bus
              ++ seg ∧
        (∀ r, Event.endTransmission r ∈ seg → r = 0) ∧
        committed seg = place a (bytesOf s.mem bp 0 (pageLength a l))) := by
  have hpage : a % 32 + pageLength a l ≤ 32 := pageLength_le_page a l
  obtain ⟨_, _, k, _, hk⟩ := read_writePage_frame T E a l bp write s
  obtain ⟨hm, tr, hbus, hbt, hc⟩ := attempts_write T E a (pageLength a l) bp write hw ha hpage k
    (s.logSpan (a, pageLength a l))
  refine ⟨by rw [hk, hm]; rfl, ⟨tr, by rw [hk, hbus]; rfl, hbt, hc⟩, ?_⟩
  intro hres
  unfold read_writePage at hres
  obtain ⟨K, hK, hfail, hok, _⟩ := retryLoop_success T E a (pageLength a l) bp write 15 _ hres
  obtain ⟨hmK, _⟩ := attempts_write T E a (pageLength a l) bp write hw ha hpage K
    (s.logSpan (a, pageLength a l))
  have hrw := read_writeBuffer_write T E a (pageLength a l) bp write hw
    (attempts T E a (pageLength a l) bp write K (s.logSpan (a, pageLength a l)))
  have hseg := (writeSeg_committed T E a (pageLength a l) bp
    (attempts T E a (pageLength a l) bp write K (s.logSpan (a, pageLength a l))) ha hpage).2.2
    (by rw [hrw] at hok; exact hok)
  rw [hmK] at hseg
  exact ⟨K, _, hK, hfail, hok, by rw [hrw], hseg.2, hseg.1⟩

/-- The bytes of a span inside one page, at their device addresses, are the bytes of the
request at the offsets of the span. -/
theorem mem_span_target (address off bp0 n : Nat) (mem : List Nat) (p : Nat × Nat)
    (hpage : (address + off) % 65536 % 32 + n ≤ 32) :
    p ∈ place ((address + off) % 65536) (bytesOf mem (bp0 + off) 0 n) ↔
      ∃ k, off ≤ k ∧ k < off + n ∧ p = ((address + k) % 65536, mem.getD (bp0 + k) 0 % 256) := by
  rw [mem_place]
  constructor
  · rintro ⟨j, hj, hp⟩
    rw [bytesOf_getElem] at hp
    rw [bytesOf_length] at hj
    refine ⟨off + j, by omega, by omega, ?_⟩
    rw [hp]
    have e1 : (address + off) % 65536 + j = (address + (off + j)) % 65536 := by omega
    have e2 : bp0 + off + (0 + j) = bp0 + (off + j) := by omega
    rw [e1, e2]
  · rintro ⟨k, hk1, hk2, hp⟩
    refine ⟨k - off, by rw [bytesOf_length]; omega, ?_⟩
    rw [bytesOf_getElem, hp]
    have e1 : (address + off) % 65536 + (k - off) = (address + k) % 65536 := by omega
    have e2 : bp0 + off + (0 + (k - off)) = bp0 + k := by omega
    rw [e1, e2]

/-- The loop of `read_writeBytes` in write direction, from any test on, when it ends with the
return of 1. -/
theorem whileLoop_write (T : Transport) (E : EEPROM_AT24CX) (address write bp0 : Nat)
    (hw : write ≠ 0) :
    ∀ (fuel : Nat) (v : LoopVars) (s1 : State),
      whileLoop T E address write fuel v = some (1, s1) →
      v.offset + v.length < 65536 → v.bp = bp0 + v.offset →
      s1.mem = v.s.mem ∧
      (∀ k, v.offset ≤ k → k < v.offset + v.length →
        ∃ i w, loopState T E address write i v = some w ∧ w.length ≠ 0 ∧ w.offset ≤ k ∧
          k < w.offset + pageLength ((address + w.offset) % 65536) (w.length % 256) ∧
          SentByLastAttempt T E address write w
            ((address + k) % 65536, v.s.mem.getD (bp0 + k) 0 % 256)) ∧
      ∃ tr, s1.bus = v.s.bus ++ tr ∧ BeginsTx tr ∧
        ∀ p, p ∈ committed tr → ∃ k, v.offset ≤ k ∧ k < v.offset + v.length ∧
          p = ((address + k) % 65536, v.s.mem.getD (bp0 + k) 0 % 256) := by
  intro fuel
  induction fuel with
  | zero => intro v s1 h; simp [whileLoop] at h
  | succ fuel ih =>
    intro v s1 h hrange hbp
    by_cases h0 : v.length = 0
    · have hs : whileStep T E address write v = .inl (1, v.s) := by
        simp only [whileStep, h0, if_true]
      simp only [whileLoop, hs, Option.some.injEq, Prod.mk.injEq, true_and] at h
      subst h
      refine ⟨rfl, ?_, [], by simp, Or.inl rfl, by simp [committed, committedAux_nil]⟩
      intro k hk1 hk2
      omega
    · have hmod : (address + v.offset) % 65536 < 65536 := Nat.mod_lt _ (by decide)
      obtain ⟨hres, _, _⟩ := read_writePage_frame T E ((address + v.offset) % 65536)
        (v.length % 256) v.bp write v.s
      obtain ⟨hmem, ⟨trp, hbusp, hbtp, hcp⟩, hlast⟩ := read_writePage_write T E
        ((address + v.offset) % 65536) (v.length % 256) v.bp write hw hmod v.s
      have hpage := pageLength_le_page ((address + v.offset) % 65536) (v.length % 256)
      have hple := pageLength_le ((address + v.offset) % 65536) (v.length % 256)
      have hmle := Nat.mod_le v.length 256
      by_cases hr : (read_writePage T E ((address + v.offset) % 65536) (v.length % 256) v.bp
          write v.s).1 = 0
      · have hs : whileStep T E address write v
            = .inl (0, (read_writePage T E ((address + v.offset) % 65536) (v.length % 256)
                v.bp write v.s).2) := by
          simp only [whileStep, h0, if_false, hr, if_true]
        simp [whileLoop, hs] at h
      · have hn : (read_writePage T E ((address + v.offset) % 65536) (v.length % 256) v.bp
            write v.s).1 = pageLength ((address + v.offset) % 65536) (v.length % 256) := by
          rcases hres with h1 | h1
          · exact absurd h1 hr
          · exact h1
        have hs : whileStep T E address write v
            = .inr ⟨v.length - pageLength ((address + v.offset) % 65536) (v.length % 256),
                v.offset + pageLength ((address + v.offset) % 65536) (v.length % 256),
                v.bp + pageLength ((address + v.offset) % 65536) (v.length % 256),
                (read_writePage T E ((address + v.offset) % 65536) (v.length % 256) v.bp
                  write v.s).2⟩ := by
          have e1 : (v.length + 65536
              - pageLength ((address + v.offset) % 65536) (v.length % 256)) % 65536
              = v.length - pageLength ((address + v.offset) % 65536) (v.length % 256) := by
            omega
          have e2 : (v.offset + pageLength ((address + v.offset) % 65536) (v.length % 256))
              % 65536
              = v.offset + pageLength ((address + v.offset) % 65536) (v.length % 256) := by
            omega
          have hr2 : pageLength ((address + v.offset) % 65536) (v.length % 256) ≠ 0 := by
            rw [← hn]; exact hr
          simp only [whileStep, h0, if_false, hn, hr2, e1, e2]
        simp only [whileLoop, hs] at h
        obtain ⟨hm1, hA, tr1, hbus1, hbt1, hc1⟩ := ih _ s1 h (by simp only; omega)
          (by simp only; omega)
        simp only at hm1 hA hbus1 hc1
        rw [hmem] at hm1 hA hc1
        have hn0 : pageLength ((address + v.offset) % 65536) (v.length % 256) ≠ 0 := by
          rw [← hn]; exact hr
        refine ⟨hm1, ?_, trp ++ tr1, by rw [hbus1, hbusp, List.append_assoc],
          beginsTx_append _ _ hbtp hbt1, ?_⟩
        · intro k hk1 hk2
          by_cases hk : k < v.offset
              + pageLength ((address + v.offset) % 65536) (v.length % 256)
          · obtain ⟨K, seg, hK, hfail, hok, hseg, hends, hcom⟩ := hlast hr
            refine ⟨0, v, rfl, h0, hk1, hk, K, seg, hK, hfail, hok, hseg, hends, ?_⟩
            rw [hcom, hbp]
            exact (mem_span_target address v.offset bp0 _ v.s.mem _ hpage).2
              ⟨k, hk1, hk, rfl⟩
          · obtain ⟨i, w, hi, hw0, hw1, hw2, hsent⟩ := hA k (by omega) (by omega)
            exact ⟨i + 1, w, (loopState_step T E address write i v _ hs).trans hi, hw0, hw1,
              hw2, hsent⟩
        · intro p hp
          rw [committed_append _ _ hbt1, List.mem_append] at hp
          rcases hp with hp | hp
          · have := hcp p hp
            rw [hbp] at this
            obtain ⟨k, hk1, hk2, hpk⟩ :=
              (mem_span_target address v.offset bp0 _ v.s.mem p hpage).1 this
            exact ⟨k, hk1, by omega, hpk⟩
          · obtain ⟨k, hk1, hk2, hpk⟩ := hc1 p hp
            exact ⟨k, by omega, by omega, hpk⟩

/-- The read loop only appends `read` events to the bus trace. -/
theorem forLoop_read_events (T : Transport) (E : EEPROM_AT24CX) (bp : Nat) (n : Nat) :
    ∀ (i : Nat) (v : BufVars), ∃ (s1 : State) (rs : List Nat),
      forLoop T E bp 0 n i v = .inr ⟨v.address, v.result, s1⟩ ∧
      s1.bus = v.s.bus ++ rs.map Event.read ∧ rs.length ≤ n := by
  induction n with
  | zero => intro i v; exact ⟨v.s, [], by simp [forLoop]⟩
  | succ n ih =>
    intro i v
    simp only [forLoop, forBody, ne_eq, not_true_eq_false, if_false]
    by_cases ha : Wire.available T v.s = 0
    · simp only [ha, not_true_eq_false, if_false]
      obtain ⟨s1, rs, h1, h2, h3⟩ := ih (i + 1) v
      exact ⟨s1, rs, h1, h2, by omega⟩
    · simp only [ha, not_false_eq_true, if_true]
      obtain ⟨s1, rs, h1, h2, h3⟩ := ih (i + 1)
        ⟨v.address, v.result, (Wire.read T v.s).2.setBuff (bp + i) (Wire.read T v.s).1⟩
      refine ⟨s1, (Wire.read T v.s).1 :: rs, h1, ?_, by simp; omega⟩
      simpa [Wire.read] using h2

/-- One `read_writeBuffer` call in read direction, on any transport: the result and the bus
segment. -/
theorem read_writeBuffer_read (T : Transport) (E : EEPROM_AT24CX) (a n bp : Nat) (s : State) :
    ∃ rs : List Nat, rs.length ≤ n ∧
      (read_writeBuffer T E a n bp 0 s).1
        = (if T.endTransmission (s.bus ++ txOpen E a) % 256 ≠ 0 then 0 else n) ∧
      (read_writeBuffer T E a n bp 0 s).2.bus
        = s.bus ++ (txOpen E a
          ++ [.endTransmission (T.endTransmission (s.bus ++ txOpen E a) % 256),
              .requestFrom E.m_deviceAddress n]
          ++ rs.map Event.read ++ [.delay 10]) := by
  unfold read_writeBuffer
  simp only [open_eq, if_true]
  obtain ⟨s1, rs, h1, h2, h3⟩ := forLoop_read_events T E bp n 0
    ⟨a, (Wire.endTransmission T ((s.logCall (a, n)).send (txOpen E a))).1,
      Wire.requestFrom E.m_deviceAddress n
        (Wire.endTransmission T ((s.logCall (a, n)).send (txOpen E a))).2⟩
  rw [h1]
  simp only [ne_eq, not_true_eq_false, if_false]
  simp only [Wire.requestFrom, Wire.endTransmission, emit_bus, send_bus, logCall_bus] at h2
  refine ⟨rs, h3, ?_, ?_⟩
  · simp only [Wire.endTransmission, send_bus, logCall_bus]
    split_ifs <;> rfl
  · split_ifs <;> simp [delay, h2]

theorem delayAfterClose_cons (e : Event) (es : List Event) :
    delayAfterClose (e :: es)
      = ((match e with
          | .endTransmission _ => es.head? == some (.delay 10)
          | _ => true) && delayAfterClose es) := rfl

/-- The recursive check gives the positional statement: whatever stands right after an
`endTransmission` is `delay(10)`. -/
theorem delayAfterClose_spec (tr : List Event) (h : delayAfterClose tr = true) :
    ∀ (i r : Nat), tr[i]? = some (.endTransmission r) → tr[i + 1]? = some (.delay 10) := by
  induction tr with
  | nil => intro i r hi; simp at hi
  | cons e es ih =>
    intro i r hi
    rw [delayAfterClose_cons, Bool.and_eq_true] at h
    cases i with
    | zero =>
      simp only [List.getElem?_cons_zero, Option.some.injEq] at hi
      subst hi
      have h1 := h.1
      simp only [beq_iff_eq] at h1
      cases es with
      | nil => simp at h1
      | cons x xs =>
        simp only [List.head?_cons, Option.some.injEq] at h1
        simp [h1]
    | succ i =>
      simp only [List.getElem?_cons_succ] at hi ⊢
      exact ih h.2 i r hi

theorem delayAfterClose_writes (ws : List Nat) (es : List Event) :
    delayAfterClose (ws.map Event.write ++ es) = delayAfterClose es := by
  induction ws with
  | nil => rfl
  | cons w ws ih => simp only [List.map_cons, List.cons_append, delayAfterClose_cons, ih,
      Bool.true_and]

theorem delayAfterClose_open (E : EEPROM_AT24CX) (a : Nat) (es : List Event) :
    delayAfterClose (txOpen E a ++ es) = delayAfterClose es := by
  simp only [txOpen, List.cons_append, List.nil_append, delayAfterClose_cons, Bool.true_and]

theorem delayAfterClose_close (r : Nat) (es : List Event) :
    delayAfterClose (.endTransmission r :: .delay 10 :: es) = delayAfterClose es := by
  simp [delayAfterClose_cons]

theorem delayAfterClose_nil : delayAfterClose [] = true := rfl

/-- The three shapes of a write attempt: one transaction; two transactions of which the first
is refused; two transactions of which the first is accepted. -/
theorem writeSeg_cases (T : Transport) (E : EEPROM_AT24CX) (a n bp : Nat) (s : State) :
    (n ≤ 30 ∧ ∃ r,
      (writeSeg T E a n bp s).1 = (if r ≠ 0 then 0 else n) ∧
      (writeSeg T E a n bp s).2
        = txOpen E a ++ (bytesOf s.mem bp 0 n).map Event.write
          ++ [.endTransmission r, .delay 10]) ∨
    (30 < n ∧ ∃ r1, r1 ≠ 0 ∧
      r1 = T.endTransmission
        (s.bus ++ (txOpen E a ++ (bytesOf s.mem bp 0 30).map Event.write)) % 256 ∧
      (writeSeg T E a n bp s).1 = 0 ∧
      (writeSeg T E a n bp s).2
        = txOpen E a ++ (bytesOf s.mem bp 0 30).map Event.write
          ++ [.endTransmission r1, .delay 10] ++ txOpen E ((a + 30) % 65536)) ∨
    (30 < n ∧
      T.endTransmission
        (s.bus ++ (txOpen E a ++ (bytesOf s.mem bp 0 30).map Event.write)) % 256 = 0 ∧
      ∃ r2,
      (writeSeg T E a n bp s).1 = (if r2 ≠ 0 then 0 else n) ∧
      (writeSeg T E a n bp s).2
        = txOpen E a ++ (bytesOf s.mem bp 0 30).map Event.write
          ++ [.endTransmission 0, .delay 10] ++ txOpen E ((a + 30) % 65536)
          ++ (bytesOf s.mem bp 30 (n - 30)).map Event.write
          ++ [.endTransmission r2, .delay 10]) := by
  unfold writeSeg
  by_cases hn : n ≤ 30
  · left
    simp only [hn, if_true, dataWrites_eq]
    exact ⟨trivial, _, rfl, rfl⟩
  · right
    simp only [hn, if_false, dataWrites_eq]
    by_cases hr : T.endTransmission
        (s.bus ++ (txOpen E a ++ (bytesOf s.mem bp 0 30).map Event.write)) % 256 = 0
    · right
      simp only [hr, ne_eq, not_true_eq_false, if_false]
      exact ⟨by omega, trivial, _, rfl, rfl⟩
    · left
      simp only [hr, ne_eq, not_false_eq_true, if_true]
      exact ⟨by omega, _, hr, rfl, trivial, rfl⟩

theorem writeSeg_delay (T : Transport) (E : EEPROM_AT24CX) (a n bp : Nat) (s : State) :
    delayAfterClose (writeSeg T E a n bp s).2 = true := by
  rcases writeSeg_cases T E a n bp s with ⟨_, r, _, h⟩ | ⟨_, r1, _, _, _, h⟩ | ⟨_, _, r2, _, h⟩
  · rw [h]
    simp only [List.append_assoc, List.cons_append, List.nil_append]
    rw [delayAfterClose_open, delayAfterClose_writes, delayAfterClose_close]
    rfl
  · rw [h]
    simp only [List.append_assoc, List.cons_append, List.nil_append]
    rw [delayAfterClose_open, delayAfterClose_writes, delayAfterClose_close,
      ← List.append_nil (txOpen E _), delayAfterClose_open]
    rfl
  · rw [h]
    simp only [List.append_assoc, List.cons_append, List.nil_append]
    rw [delayAfterClose_open, delayAfterClose_writes, delayAfterClose_close,
      delayAfterClose_open, delayAfterClose_writes, delayAfterClose_close]
    rfl

theorem no_end_in_open (E : EEPROM_AT24CX) (a r : Nat) :
    Event.endTransmission r ∉ txOpen E a := by
  simp [txOpen]

theorem allClosed_cons (op : Bool) (e : Event) (es : List Event) :
    allClosed op (e :: es)
      = (match e with
          | .beginTransmission _ => !op && allClosed true es
          | .endTransmission _ => allClosed false es
          | _ => allClosed op es) := rfl

theorem allClosed_nil (op : Bool) : allClosed op [] = !op := by
  cases op <;> rfl

theorem allClosed_writes (op : Bool) (ws : List Nat) (es : List Event) :
    allClosed op (ws.map Event.write ++ es) = allClosed op es := by
  induction ws with
  | nil => rfl
  | cons w ws ih => simp only [List.map_cons, List.cons_append, allClosed_cons, ih]

theorem allClosed_reads (op : Bool) (rs : List Nat) (es : List Event) :
    allClosed op (rs.map Event.read ++ es) = allClosed op es := by
  induction rs with
  | nil => rfl
  | cons w ws ih => simp only [List.map_cons, List.cons_append, allClosed_cons, ih]

theorem allClosed_open (E : EEPROM_AT24CX) (a : Nat) (es : List Event) :
    allClosed false (txOpen E a ++ es) = allClosed true es := by
  simp only [txOpen, List.cons_append, List.nil_append, allClosed_cons, Bool.not_false,
    Bool.true_and]

theorem chunksBounded_cons (c : Nat) (e : Event) (es : List Event) :
    chunksBounded c (e :: es)
      = (match e with
          | .beginTransmission _ => chunksBounded 0 es
          | .write _ => decide (c + 1 ≤ 2 + EEPROM__WR_BUFFER_SIZE) && chunksBounded (c + 1) es
          | .requestFrom _ n => decide (n ≤ EEPROM__RD_BUFFER_SIZE) && chunksBounded c es
          | _ => chunksBounded c es) := rfl

theorem chunksBounded_nil (c : Nat) : chunksBounded c [] = true := by
  cases c <;> rfl

theorem chunksBounded_beginsTx (c : Nat) (fs : List Event) (h : BeginsTx fs) :
    chunksBounded c fs = chunksBounded 0 fs := by
  rcases h with h | ⟨d, tl, h⟩
  · subst h; rw [chunksBounded_nil, chunksBounded_nil]
  · subst h; rfl

theorem chunksBounded_append (es fs : List Event) (h : BeginsTx fs) :
    ∀ c, chunksBounded c (es ++ fs) = (chunksBounded c es && chunksBounded 0 fs) := by
  induction es with
  | nil =>
    intro c
    rw [List.nil_append, chunksBounded_nil, Bool.true_and]
    exact chunksBounded_beginsTx c fs h
  | cons e es ih =>
    intro c
    cases e <;> simp only [List.cons_append, chunksBounded_cons, ih, Bool.and_assoc]

theorem chunksBounded_writes (ws : List Nat) (es : List Event) :
    ∀ c, c + ws.length ≤ 32 →
      chunksBounded c (ws.map Event.write ++ es) = chunksBounded (c + ws.length) es := by
  induction ws with
  | nil => intro c _; rfl
  | cons w ws ih =>
    intro c h
    simp only [List.length_cons] at h
    simp only [List.map_cons, List.cons_append, chunksBounded_cons, wr_size, List.length_cons]
    rw [ih (c + 1) (by omega)]
    have : c + 1 ≤ 2 + 30 := by omega
    simp only [this, decide_True, Bool.true_and]
    rw [show c + 1 + ws.length = c + (ws.length + 1) by omega]

theorem chunksBounded_reads (rs : List Nat) (es : List Event) :
    ∀ c, chunksBounded c (rs.map Event.read ++ es) = chunksBounded c es := by
  induction rs with
  | nil => intro c; rfl
  | cons w ws ih => intro c; simp only [List.map_cons, List.cons_append, chunksBounded_cons, ih]

theorem chunksBounded_open (E : EEPROM_AT24CX) (a c : Nat) (es : List Event) :
    chunksBounded c (txOpen E a ++ es) = chunksBounded 2 es := by
  simp [txOpen, chunksBounded_cons, wr_size]

theorem chunksBounded_run (ws : List Nat) (post : List Event) :
    ∀ c, c ≤ 32 → chunksBounded c (ws.map Event.write ++ post) = true → c + ws.length ≤ 32 := by
  induction ws with
  | nil => intro c hc _; simpa using hc
  | cons w ws ih =>
    intro c _ h
    simp only [List.map_cons, List.cons_append, chunksBounded_cons, wr_size,
      Bool.and_eq_true, decide_eq_true_eq] at h
    have := ih (c + 1) (by omega) h.2
    simp only [List.length_cons]
    omega

theorem chunksBounded_suffix (pre es : List Event) :
    ∀ c, chunksBounded c (pre ++ es) = true → ∃ c1, chunksBounded c1 es = true := by
  induction pre with
  | nil => intro c h; exact ⟨c, h⟩
  | cons e pre ih =>
    intro c h
    cases e with
    | beginTransmission d => exact ih 0 h
    | write b =>
      simp only [List.cons_append, chunksBounded_cons, Bool.and_eq_true] at h
      exact ih _ h.2
    | endTransmission r => exact ih c h
    | requestFrom d n =>
      simp only [List.cons_append, chunksBounded_cons, Bool.and_eq_true] at h
      exact ih _ h.2
    | read b => exact ih c h
    | delay ms => exact ih c h

/-- In a bounded trace the writes that directly follow a `beginTransmission` are at most
32: the two address bytes and at most 30 data bytes. -/
theorem chunksBounded_tx (pre post : List Event) (d : Nat) (ws : List Nat) (c : Nat)
    (h : chunksBounded c (pre ++ .beginTransmission d :: (ws.map Event.write ++ post)) = true) :
    ws.length ≤ 2 + 30 := by
  obtain ⟨c1, h1⟩ := chunksBounded_suffix pre _ c h
  have := chunksBounded_run ws post 0 (by omega) h1
  omega

/-- In a bounded trace every read request asks for at most 32 bytes. -/
theorem chunksBounded_request (tr : List Event) :
    ∀ c, chunksBounded c tr = true → ∀ d n, Event.requestFrom d n ∈ tr → n ≤ 32 := by
  induction tr with
  | nil => intro c _ d n h; simp at h
  | cons e es ih =>
    intro c h d n hmem
    rw [List.mem_cons] at hmem
    cases e with
    | beginTransmission d1 =>
      rcases hmem with hm | hm
      · cases hm
      · exact ih 0 h d n hm
    | write b =>
      simp only [chunksBounded_cons, Bool.and_eq_true] at h
      rcases hmem with hm | hm
      · cases hm
      · exact ih _ h.2 d n hm
    | endTransmission r =>
      rcases hmem with hm | hm
      · cases hm
      · exact ih c h d n hm
    | requestFrom d1 n1 =>
      simp only [chunksBounded_cons, Bool.and_eq_true, decide_eq_true_eq] at h
      rcases hmem with hm | hm
      · cases hm
        exact h.1
      · exact ih _ h.2 d n hm
    | read b =>
      rcases hmem with hm | hm
      · cases hm
      · exact ih c h d n hm
    | delay ms =>
      rcases hmem with hm | hm
      · cases hm
      · exact ih c h d n hm

/-- One `read_writeBuffer` call for a span of at most 32 bytes appends a bounded segment. -/
theorem read_writeBuffer_chunks (T : Transport) (E : EEPROM_AT24CX) (a n bp write : Nat)
    (s : State) (hn : n ≤ 32) :
    ∃ seg, (read_writeBuffer T E a n bp write s).2.bus = s.bus ++ seg ∧ BeginsTx seg ∧
      chunksBounded 0 seg = true := by
  by_cases hw : write = 0
  · subst hw
    obtain ⟨rs, _, _, hbus⟩ := read_writeBuffer_read T E a n bp s
    refine ⟨_, hbus, ?_, ?_⟩
    · simp only [List.append_assoc]; exact txOpen_beginsTx E a _
    · simp only [List.append_assoc, List.cons_append, List.nil_append]
      rw [chunksBounded_open]
      simp only [chunksBounded_cons]
      rw [chunksBounded_reads]
      have : n ≤ EEPROM__RD_BUFFER_SIZE := hn
      simp [this, chunksBounded_cons, chunksBounded_nil]
  · have hrw := read_writeBuffer_write T E a n bp write hw s
    refine ⟨(writeSeg T E a n bp s).2, by rw [hrw],
      ?_, ?_⟩
    · obtain ⟨seg, h⟩ := writeSeg_head T E a n bp s
      exact Or.inr ⟨_, seg, h⟩
    · rcases writeSeg_cases T E a n bp s with ⟨hn30, r, _, h⟩ | ⟨_, r1, _, _, _, h⟩ |
        ⟨_, _, r2, _, h⟩
      · rw [h]
        simp only [List.append_assoc, List.cons_append, List.nil_append]
        rw [chunksBounded_open, chunksBounded_writes _ _ _ (by rw [bytesOf_length]; omega)]
        simp [chunksBounded_cons, chunksBounded_nil]
      · rw [h]
        simp only [List.append_assoc, List.cons_append, List.nil_append]
        rw [chunksBounded_open, chunksBounded_writes _ _ _ (by rw [bytesOf_length])]
        simp only [chunksBounded_cons]
        rw [← List.append_nil (txOpen E _), chunksBounded_open, chunksBounded_nil]
      · rw [h]
        simp only [List.append_assoc, List.cons_append, List.nil_append]
        rw [chunksBounded_open, chunksBounded_writes _ _ _ (by rw [bytesOf_length])]
        simp only [chunksBounded_cons]
        rw [chunksBounded_open, chunksBounded_writes _ _ _ (by rw [bytesOf_length]; omega)]
        simp [chunksBounded_cons, chunksBounded_nil]

theorem attempts_chunks (T : Transport) (E : EEPROM_AT24CX) (a n bp write : Nat) (hn : n ≤ 32) :
    ∀ (k : Nat) (s : State), ∃ tr, (attempts T E a n bp write k s).bus = s.bus ++ tr ∧
      BeginsTx tr ∧ chunksBounded 0 tr = true := by
  intro k
  induction k with
  | zero => intro s; exact ⟨[], by simp [attempts], Or.inl rfl, rfl⟩
  | succ k ih =>
    intro s
    obtain ⟨seg, h1, h2, h3⟩ := read_writeBuffer_chunks T E a n bp write s hn
    obtain ⟨tr, h4, h5, h6⟩ := ih (read_writeBuffer T E a n bp write s).2
    refine ⟨seg ++ tr, ?_, beginsTx_append _ _ h2 h5, ?_⟩
    · simp only [attempts]
      rw [h4, h1, List.append_assoc]
    · rw [chunksBounded_append _ _ h5, h3, h6]
      rfl

theorem whileStep_inr_state (T : Transport) (E : EEPROM_AT24CX) (address write : Nat)
    (v v1 : LoopVars) (hs : whileStep T E address write v = .inr v1) :
    v.length ≠ 0 ∧
    (read_writePage T E ((address + v.offset) % 65536) (v.length % 256) v.bp write v.s).1 ≠ 0 ∧
    v1 = ⟨(v.length + 65536
          - (read_writePage T E ((address + v.offset) % 65536) (v.length % 256) v.bp write
              v.s).1) % 65536,
        (v.offset + (read_writePage T E ((address + v.offset) % 65536) (v.length % 256) v.bp
          write v.s).1) % 65536,
        v.bp + (read_writePage T E ((address + v.offset) % 65536) (v.length % 256) v.bp write
          v.s).1,
        (read_writePage T E ((address + v.offset) % 65536) (v.length % 256) v.bp write v.s).2⟩ := by
  unfold whileStep at hs
  dsimp only at hs
  by_cases h0 : v.length = 0
  · simp [h0] at hs
  · by_cases hr : (read_writePage T E ((address + v.offset) % 65536) (v.length % 256)
        v.bp write v.s).1 = 0
    · simp [h0, hr] at hs
    · simp only [h0, if_false, hr, Sum.inr.injEq] at hs
      exact ⟨h0, hr, hs.symm⟩

theorem whileStep_inl_state (T : Transport) (E : EEPROM_AT24CX) (address write : Nat)
    (v : LoopVars) (r : Nat × State) (hs : whileStep T E address write v = .inl r) :
    (v.length = 0 ∧ r = (1, v.s)) ∨
    (v.length ≠ 0 ∧
      (read_writePage T E ((address + v.offset) % 65536) (v.length % 256) v.bp write v.s).1 = 0 ∧
      r = (0, (read_writePage T E ((address + v.offset) % 65536) (v.length % 256) v.bp write
        v.s).2)) := by
  unfold whileStep at hs
  dsimp only at hs
  by_cases h0 : v.length = 0
  · simp only [h0, if_true, Sum.inl.injEq] at hs
    exact Or.inl ⟨h0, hs.symm⟩
  · by_cases hr : (read_writePage T E ((address + v.offset) % 65536) (v.length % 256)
        v.bp write v.s).1 = 0
    · simp only [h0, if_false, hr, if_true, Sum.inl.injEq] at hs
      exact Or.inr ⟨h0, hr, hs.symm⟩
    · simp [h0, hr] at hs

theorem whileLoop_chunks (T : Transport) (E : EEPROM_AT24CX) (address write : Nat) :
    ∀ (fuel : Nat) (v : LoopVars) (r : Nat × State),
      whileLoop T E address write fuel v = some r →
      ∃ tr, r.2.bus = v.s.bus ++ tr ∧ BeginsTx tr ∧ chunksBounded 0 tr = true := by
  intro fuel
  induction fuel with
  | zero => intro v r h; simp [whileLoop] at h
  | succ fuel ih =>
    intro v r h
    have hpl : pageLength ((address + v.offset) % 65536) (v.length % 256) ≤ 32 := by
      have := pageLength_le_page ((address + v.offset) % 65536) (v.length % 256)
      omega
    obtain ⟨_, _, k, _, hk⟩ := read_writePage_frame T E ((address + v.offset) % 65536)
      (v.length % 256) v.bp write v.s
    obtain ⟨trp, hp1, hp2, hp3⟩ := attempts_chunks T E ((address + v.offset) % 65536)
      (pageLength ((address + v.offset) % 65536) (v.length % 256)) v.bp write hpl k
      (v.s.logSpan ((address + v.offset) % 65536,
        pageLength ((address + v.offset) % 65536) (v.length % 256)))
    rw [← hk] at hp1
    simp only [logSpan_bus] at hp1
    simp only [whileLoop] at h
    cases hs : whileStep T E address write v with
    | inl r1 =>
      rw [hs] at h
      simp only [Option.some.injEq] at h
      subst h
      rcases whileStep_inl_state T E address write v r1 hs with ⟨_, hr⟩ | ⟨_, _, hr⟩
      · subst hr
        exact ⟨[], by simp, Or.inl rfl, rfl⟩
      · subst hr
        exact ⟨trp, hp1, hp2, hp3⟩
    | inr v1 =>
      rw [hs] at h
      obtain ⟨tr, h1, h2, h3⟩ := ih v1 r h
      obtain ⟨_, _, hv1⟩ := whileStep_inr_state T E address write v v1 hs
      refine ⟨trp ++ tr, ?_, beginsTx_append _ _ hp2 h2, ?_⟩
      · rw [h1, hv1]
        simp only
        rw [hp1, List.append_assoc]
      · rw [chunksBounded_append _ _ h2, hp3, h3]
        rfl

/-- The loop from a test with a 16-bit remaining length of at least 256: it can only return
0, and on a transport that accepts every close it gets to a span of length 0, on which all
15 attempts fail. -/
theorem whileLoop_large (T : Transport) (E : EEPROM_AT24CX) (address write : Nat) :
    ∀ (fuel : Nat) (v : LoopVars) (r : Nat × State),
      256 ≤ v.length → v.length < 65536 →
      whileLoop T E address write fuel v = some r →
      r.1 = 0 ∧
      (T.allSucceed → ∃ sp cl a1, r.2.spans = sp ++ [(a1, 0)] ∧
        r.2.calls = cl ++ List.replicate 15 (a1, 0)) := by
  intro fuel
  induction fuel with
  | zero => intro v r _ _ h; simp [whileLoop] at h
  | succ fuel ih =>
    intro v r h256 h16 h
    simp only [whileLoop] at h
    by_cases hm : v.length % 256 = 0
    · rw [whileStep_truncated T E address write v (by omega) hm] at h
      simp only [Option.some.injEq] at h
      subst h
      refine ⟨rfl, fun _ => ⟨v.s.spans, v.s.calls, (address + v.offset) % 65536, ?_, ?_⟩⟩
      · simp [attempts_spans]
      · simp [attempts_calls]
    · cases hs : whileStep T E address write v with
      | inl r1 =>
        rw [hs] at h
        simp only [Option.some.injEq] at h
        subst h
        rcases whileStep_inl_state T E address write v r1 hs with ⟨h0, _⟩ | ⟨_, _, hr⟩
        · omega
        · subst hr
          refine ⟨rfl, fun hT => ?_⟩
          rw [whileStep_ok T hT E address write v hm] at hs
          cases hs
      | inr v1 =>
        rw [hs] at h
        obtain ⟨_, hr0, hv1⟩ := whileStep_inr_state T E address write v v1 hs
        have hn : (read_writePage T E ((address + v.offset) % 65536) (v.length % 256) v.bp
            write v.s).1 = pageLength ((address + v.offset) % 65536) (v.length % 256) := by
          rcases (read_writePage_frame T E ((address + v.offset) % 65536) (v.length % 256)
            v.bp write v.s).1 with h1 | h1
          · exact absurd h1 hr0
          · exact h1
        have hple := pageLength_le ((address + v.offset) % 65536) (v.length % 256)
        have hl1 : v1.length = v.length
            - pageLength ((address + v.offset) % 65536) (v.length % 256) := by
          rw [hv1, hn]
          simp only
          omega
        exact ih v1 r (by omega) (by omega) h

theorem greedySplit_zero (address fuel offset : Nat) :
    greedySplit address fuel offset 0 = [] := by
  cases fuel <;> simp [greedySplit]

theorem greedySplit_succ (address fuel offset remaining : Nat) (h : remaining ≠ 0) :
    greedySplit address (fuel + 1) offset remaining
      = ((address + offset) % 65536,
          min remaining (32 - (address + offset) % 65536 % 32))
        :: greedySplit address fuel
            (offset + min remaining (32 - (address + offset) % 65536 % 32))
            (remaining - min remaining (32 - (address + offset) % 65536 % 32)) := by
  simp only [greedySplit, h, if_false]

/-- The greedy split does not depend on the fuel once there is enough of it. -/
theorem greedySplit_fuel (address : Nat) :
    ∀ (fuel offset remaining : Nat), remaining ≤ fuel →
      greedySplit address fuel offset remaining
        = greedySplit address remaining offset remaining := by
  intro fuel
  induction fuel using Nat.strong_induction_on with
  | _ fuel ih =>
    intro offset remaining hle
    by_cases h0 : remaining = 0
    · subst h0; rw [greedySplit_zero, greedySplit_zero]
    · obtain ⟨f, rfl⟩ : ∃ f, fuel = f + 1 := ⟨fuel - 1, by omega⟩
      obtain ⟨m, rfl⟩ : ∃ m, remaining = m + 1 := ⟨remaining - 1, by omega⟩
      have hmod := Nat.mod_lt ((address + offset) % 65536) (show 0 < 32 by decide)
      rw [greedySplit_succ _ _ _ _ h0, greedySplit_succ _ _ _ _ h0]
      rw [ih f (by omega) _ _ (by omega), ih m (by omega) _ _ (by omega)]

/-- The lengths of the greedy split are between 1 and 32 and sum to the remaining length. -/
theorem greedySplit_lengths (address : Nat) :
    ∀ (fuel offset remaining : Nat), remaining ≤ fuel →
      ((greedySplit address fuel offset remaining).map Prod.snd).sum = remaining ∧
      ∀ p, p ∈ greedySplit address fuel offset remaining → 1 ≤ p.2 ∧ p.2 ≤ 32 := by
  intro fuel
  induction fuel with
  | zero =>
    intro offset remaining h
    have : remaining = 0 := by omega
    subst this
    simp [greedySplit]
  | succ fuel ih =>
    intro offset remaining hle
    by_cases h0 : remaining = 0
    · subst h0; simp [greedySplit_zero]
    · have hmod := Nat.mod_lt ((address + offset) % 65536) (show 0 < 32 by decide)
      rw [greedySplit_succ _ _ _ _ h0]
      obtain ⟨h1, h2⟩ := ih (offset + min remaining (32 - (address + offset) % 65536 % 32))
        (remaining - min remaining (32 - (address + offset) % 65536 % 32)) (by omega)
      refine ⟨?_, ?_⟩
      · simp only [List.map_cons, List.sum_cons, h1]
        omega
      · intro p hp
        rw [List.mem_cons] at hp
        rcases hp with hp | hp
        · subst hp
          simp only
          omega
        · exact h2 p hp

/-- Span `i` of the greedy split starts at the address plus the lengths of the earlier spans,
modulo `2^16`, and takes the smaller of what remains and what the page has left. -/
theorem greedySplit_index (address : Nat) :
    ∀ (fuel offset remaining i : Nat) (p : Nat × Nat),
      (greedySplit address fuel offset remaining)[i]? = some p →
      p.1 = (address + (offset
          + (((greedySplit address fuel offset remaining).take i).map Prod.snd).sum)) % 65536 ∧
      p.2 = min (remaining
          - (((greedySplit address fuel offset remaining).take i).map Prod.snd).sum)
        (32 - p.1 % 32) := by
  intro fuel
  induction fuel with
  | zero => intro offset remaining i p h; simp [greedySplit] at h
  | succ fuel ih =>
    intro offset remaining i p h
    by_cases h0 : remaining = 0
    · subst h0; simp [greedySplit_zero] at h
    · rw [greedySplit_succ _ _ _ _ h0] at h ⊢
      cases i with
      | zero =>
        simp only [List.getElem?_cons_zero, Option.some.injEq] at h
        subst h
        simp
      | succ i =>
        simp only [List.getElem?_cons_succ] at h
        obtain ⟨h1, h2⟩ := ih _ _ i p h
        simp only [List.take_succ_cons, List.map_cons, List.sum_cons]
        refine ⟨?_, ?_⟩
        · rw [h1, Nat.add_assoc offset]
        · rw [h2, Nat.sub_sub]

/-- On a transport that accepts every close the loop, from a test with fewer than 256 bytes
left, returns 1 after dispatching the greedy split of what is left, one call per span. -/
theorem whileLoop_greedy (T : Transport) (hT : T.allSucceed) (E : EEPROM_AT24CX)
    (address write : Nat) :
    ∀ (fuel : Nat) (v : LoopVars), v.length < 256 → v.offset + v.length < 65536 →
      v.length < fuel →
      ∃ s1, whileLoop T E address write fuel v = some (1, s1) ∧
        s1.spans = v.s.spans ++ greedySplit address v.length v.offset v.length ∧
        s1.calls = v.s.calls ++ greedySplit address v.length v.offset v.length := by
  intro fuel
  induction fuel with
  | zero => intro v _ _ h; omega
  | succ fuel ih =>
    intro v h256 h16 hf
    by_cases h0 : v.length = 0
    · refine ⟨v.s, by simp only [whileLoop, whileStep, h0, if_true], ?_, ?_⟩ <;>
        simp [h0, greedySplit_zero]
    · have hmod : v.length % 256 = v.length := Nat.mod_eq_of_lt h256
      have hstep := whileStep_ok T hT E address write v (by omega)
      rw [hmod] at hstep
      have hpl := pageLength_eq_min ((address + v.offset) % 65536) v.length
      have hmod32 := Nat.mod_lt ((address + v.offset) % 65536) (show 0 < 32 by decide)
      have e1 : (v.length + 65536 - pageLength ((address + v.offset) % 65536) v.length) % 65536
          = v.length - pageLength ((address + v.offset) % 65536) v.length := by omega
      have e2 : (v.offset + pageLength ((address + v.offset) % 65536) v.length) % 65536
          = v.offset + pageLength ((address + v.offset) % 65536) v.length := by omega
      rw [e1, e2] at hstep
      obtain ⟨s1, hs1, hsp, hcl⟩ := ih
        ⟨v.length - pageLength ((address + v.offset) % 65536) v.length,
          v.offset + pageLength ((address + v.offset) % 65536) v.length,
          v.bp + pageLength ((address + v.offset) % 65536) v.length,
          (read_writeBuffer T E ((address + v.offset) % 65536)
            (pageLength ((address + v.offset) % 65536) v.length) v.bp write
            (v.s.logSpan ((address + v.offset) % 65536,
              pageLength ((address + v.offset) % 65536) v.length))).2⟩
        (by dsimp only; omega) (by dsimp only; omega) (by dsimp only; omega)
      dsimp only at hsp hcl
      rw [(read_writeBuffer_frame T E _ _ _ write _).2.1] at hsp
      rw [(read_writeBuffer_frame T E _ _ _ write _).1] at hcl
      simp only [logSpan_spans, logSpan_calls] at hsp hcl
      obtain ⟨m, hm⟩ : ∃ m, v.length = m + 1 := ⟨v.length - 1, by omega⟩
      have hg : greedySplit address v.length v.offset v.length
          = ((address + v.offset) % 65536, pageLength ((address + v.offset) % 65536) v.length)
            :: greedySplit address
                (v.length - pageLength ((address + v.offset) % 65536) v.length)
                (v.offset + pageLength ((address + v.offset) % 65536) v.length)
                (v.length - pageLength ((address + v.offset) % 65536) v.length) := by
        conv_lhs => rw [hm]
        rw [greedySplit_succ _ _ _ _ (by omega), ← hm, ← hpl]
        rw [greedySplit_fuel address m _ _ (by omega)]
      refine ⟨s1, by simp only [whileLoop, hstep]; exact hs1, ?_, ?_⟩
      · rw [hsp, hg, List.append_assoc]; rfl
      · rw [hcl, hg, List.append_assoc]; rfl

/-- What one `read_writePage` call adds to the logs: one span and at most 15 calls. -/
theorem read_writePage_counts (T : Transport) (E : EEPROM_AT24CX) (a l bp write : Nat)
    (s : State) :
    (read_writePage T E a l bp write s).2.spans.length = s.spans.length + 1 ∧
    (read_writePage T E a l bp write s).2.calls.length ≤ s.calls.length + 15 ∧
    s.calls.length ≤ (read_writePage T E a l bp write s).2.calls.length := by
  obtain ⟨_, hsp, k, hk, hst⟩ := read_writePage_frame T E a l bp write s
  refine ⟨by rw [hsp]; simp, ?_, ?_⟩
  · rw [hst, attempts_calls]; simp; omega
  · rw [hst, attempts_calls]; simp

/-- The loop logs one span per iteration and at most 15 calls per span, and it makes at most
as many iterations as there are bytes left. -/
theorem whileLoop_counts (T : Transport) (E : EEPROM_AT24CX) (address write : Nat) :
    ∀ (fuel : Nat) (v : LoopVars) (r : Nat × State),
      whileLoop T E address write fuel v = some r →
      ∃ iters, iters ≤ v.length ∧ r.2.spans.length = v.s.spans.length + iters ∧
        r.2.calls.length ≤ v.s.calls.length + 15 * iters ∧
        v.s.calls.length ≤ r.2.calls.length := by
  intro fuel
  induction fuel with
  | zero => intro v r h; simp [whileLoop] at h
  | succ fuel ih =>
    intro v r h
    obtain ⟨hp1, hp2, hp3⟩ := read_writePage_counts T E ((address + v.offset) % 65536)
      (v.length % 256) v.bp write v.s
    simp only [whileLoop] at h
    cases hs : whileStep T E address write v with
    | inl r1 =>
      rw [hs] at h
      simp only [Option.some.injEq] at h
      subst h
      rcases whileStep_inl_state T E address write v r1 hs with ⟨_, hr⟩ | ⟨h0, _, hr⟩
      · subst hr
        exact ⟨0, by omega, by simp, by simp, le_refl _⟩
      · subst hr
        exact ⟨1, by omega, hp1, by dsimp only; omega, hp3⟩
    | inr v1 =>
      rw [hs] at h
      obtain ⟨iters, h1, h2, h3, h4⟩ := ih v1 r h
      have hlt := whileStep_length T E address write v v1 hs
      obtain ⟨_, _, hv1⟩ := whileStep_inr_state T E address write v v1 hs
      have hs1 : v1.s = (read_writePage T E ((address + v.offset) % 65536) (v.length % 256)
          v.bp write v.s).2 := by rw [hv1]
      rw [hs1] at h2 h3 h4
      exact ⟨iters + 1, by omega, by omega, by omega, by omega⟩

/-- One iteration of the loop at a test with a non-zero 16-bit remaining length: either
`read_writePage` reports 0 and the function returns 0, or it reports between 1 and
`min(32, remaining)` bytes and the new remaining length is the old one minus that, without
wrap. -/
theorem whileStep_progress (T : Transport) (E : EEPROM_AT24CX) (address write : Nat)
    (v : LoopVars) (h0 : v.length ≠ 0) (h16 : v.length < 65536) :
    ((read_writePage T E ((address + v.offset) % 65536) (v.length % 256) v.bp write v.s).1 = 0 ∧
      whileStep T E address write v
        = .inl (0, (read_writePage T E ((address + v.offset) % 65536) (v.length % 256) v.bp
            write v.s).2)) ∨
    (1 ≤ (read_writePage T E ((address + v.offset) % 65536) (v.length % 256) v.bp write v.s).1 ∧
      (read_writePage T E ((address + v.offset) % 65536) (v.length % 256) v.bp write v.s).1
        ≤ min 32 v.length ∧
      ∃ v1, whileStep T E address write v = .inr v1 ∧
        v1.length = (v.length + 65536
          - (read_writePage T E ((address + v.offset) % 65536) (v.length % 256) v.bp write
              v.s).1) % 65536 ∧
        v1.length = v.length
          - (read_writePage T E ((address + v.offset) % 65536) (v.length % 256) v.bp write
              v.s).1 ∧
        v1.length < v.length) := by
  by_cases hr : (read_writePage T E ((address + v.offset) % 65536) (v.length % 256) v.bp write
      v.s).1 = 0
  · left
    exact ⟨hr, by simp only [whileStep, h0, if_false, hr, if_true]⟩
  · right
    have hn : (read_writePage T E ((address + v.offset) % 65536) (v.length % 256) v.bp
        write v.s).1 = pageLength ((address + v.offset) % 65536) (v.length % 256) := by
      rcases (read_writePage_frame T E ((address + v.offset) % 65536) (v.length % 256)
        v.bp write v.s).1 with h1 | h1
      · exact absurd h1 hr
      · exact h1
    have hple := pageLength_le ((address + v.offset) % 65536) (v.length % 256)
    have hpage := pageLength_le_page ((address + v.offset) % 65536) (v.length % 256)
    have hmle := Nat.mod_le v.length 256
    have hs : whileStep T E address write v
        = .inr ⟨(v.length + 65536
              - (read_writePage T E ((address + v.offset) % 65536) (v.length % 256) v.bp write
                  v.s).1) % 65536,
            (v.offset + (read_writePage T E ((address + v.offset) % 65536) (v.length % 256)
              v.bp write v.s).1) % 65536,
            v.bp + (read_writePage T E ((address + v.offset) % 65536) (v.length % 256) v.bp
              write v.s).1,
            (read_writePage T E ((address + v.offset) % 65536) (v.length % 256) v.bp write
              v.s).2⟩ := by
      simp only [whileStep, h0, if_false, hr]
    refine ⟨by omega, by rw [hn]; omega, _, hs, rfl, ?_, ?_⟩
    · dsimp only
      rw [hn]
      omega
    · dsimp only
      rw [hn] at hr ⊢
      omega

/-! ## The claims -/

/-- C1 (the code departs from the claim). P1 coverage fails at length 256: whatever the
transport, the address and the direction, `read_writeBytes` passes the 16-bit length 256 to
the `uint8_t` parameter of `read_writePage`, so the only span it dispatches is
`(address mod 2^16, 0)`; the call returns 0 and the span lengths sum to 0, not to 256. -/
theorem coverage_fails_at_256 (T : Transport) (E : EEPROM_AT24CX) (address bp write : Nat)
    (s : State) :
    ∃ s1, read_writeBytes T E address 256 bp write s = some (0, s1) ∧
      s1.spans = s.spans ++ [(address % 65536, 0)] ∧
      (([(address % 65536, 0)] : List (Nat × Nat)).map Prod.snd).sum ≠ 256 := by
  refine ⟨_, read_writeBytes_256 T E address bp write s, ?_, by simp⟩
  rw [attempts_spans]
  rfl

/-- C2. Write postcondition on success: for every address, every 16-bit `length`, every
buffer and every transport, if `read_writeBytes` in write direction returns 1 then
(1) for every `k < length` the byte `buff[k]` is delivered at device address
`(address + k) mod 2^16` by the last attempt on the span that contains offset `k`: that
attempt returns non-zero after the failed ones, every transaction close in its bus segment
reports success, and the pair is among the data of these transactions;
(2) every data byte that the bus trace of the call delivers in a successfully closed
transaction, failed attempts included, is some `buff[k]` at `(address + k) mod 2^16` with
`k < length`, so no other device address receives data; and the buffer is left as it was. -/
theorem write_postcondition (T : Transport) (E : EEPROM_AT24CX)
    (address length bp write : Nat) (s s1 : State)
    (hl : length < 65536) (hw : write ≠ 0)
    (h : read_writeBytes T E address length bp write s = some (1, s1)) :
    (∀ k, k < length →
      ∃ i v, loopState T E address write i ⟨length, 0, bp, s⟩ = some v ∧ v.length ≠ 0 ∧
        v.offset ≤ k ∧
        k < v.offset + pageLength ((address + v.offset) % 65536) (v.length % 256) ∧
        SentByLastAttempt T E address write v ((address + k) % 65536, s.buff (bp + k))) ∧
    (∃ tr, s1.bus = s.bus ++ tr ∧
      ∀ p, p ∈ committed tr →
        ∃ k, k < length ∧ p = ((address + k) % 65536, s.buff (bp + k))) ∧
    s1.mem = s.mem := by
  obtain ⟨hm, hA, tr, hbus, _, hc⟩ := whileLoop_write T E address write bp hw (length + 1)
    ⟨length, 0, bp, s⟩ s1 h (by simp only; omega) (by simp)
  simp only at hm hA hbus hc
  refine ⟨?_, ⟨tr, hbus, ?_⟩, hm⟩
  · intro k hk
    exact hA k (Nat.zero_le k) (by omega)
  · intro p hp
    obtain ⟨k, _, hk, hpk⟩ := hc p hp
    exact ⟨k, by omega, hpk⟩

/-- The write postcondition at a run of four bytes over two pages on a device that is busy
for the first two closes. -/
theorem write_postcondition_witness :
    (∀ k, k < 4 →
      ∃ i v, loopState (busyBus 2) ⟨80⟩ 30 1 i ⟨4, 0, 0, State.init [7, 8, 9, 10]⟩ = some v ∧
        v.length ≠ 0 ∧ v.offset ≤ k ∧
        k < v.offset + pageLength ((30 + v.offset) % 65536) (v.length % 256) ∧
        SentByLastAttempt (busyBus 2) ⟨80⟩ 30 1 v
          ((30 + k) % 65536, (State.init [7, 8, 9, 10]).buff (0 + k))) ∧
    (∃ tr, ((read_writeBytes (busyBus 2) ⟨80⟩ 30 4 0 1 (State.init [7, 8, 9, 10])).get
          (by decide)).2.bus = (State.init [7, 8, 9, 10]).bus ++ tr ∧
      ∀ p, p ∈ committed tr →
        ∃ k, k < 4 ∧ p = ((30 + k) % 65536, (State.init [7, 8, 9, 10]).buff (0 + k))) ∧
    ((read_writeBytes (busyBus 2) ⟨80⟩ 30 4 0 1 (State.init [7, 8, 9, 10])).get
      (by decide)).2.mem = (State.init [7, 8, 9, 10]).mem :=
  write_postcondition (busyBus 2) ⟨80⟩ 30 4 0 1 (State.init [7, 8, 9, 10])
    ((read_writeBytes (busyBus 2) ⟨80⟩ 30 4 0 1 (State.init [7, 8, 9, 10])).get (by decide)).2
    (by decide) (by decide) (by decide)

/-- C3 (the code departs from the claim). P6 round trip fails for a request of 256 bytes at
address 1, which is not page-aligned and spans 9 pages inside the address space: over the
ideal device the write `read_writeBytes(1, 256, src, 1)` returns 0, not 1, after 15 calls of
`read_writeBuffer` that are all for the span `(1, 0)` of length 0. -/
theorem round_trip_fails_at_256 (cell : Nat → Nat) (E : EEPROM_AT24CX) (bp : Nat) (s : State) :
    ∃ s1, read_writeBytes (idealBus cell) E 1 256 bp 1 s = some (0, s1) ∧
      s1.calls = s.calls ++ List.replicate 15 (1, 0) := by
  refine ⟨_, read_writeBytes_256 (idealBus cell) E 1 bp 1 s, ?_⟩
  rw [attempts_calls]
  rfl

/-- C4. P5, zero length: for every address, buffer and direction `read_writeBytes` with
length 0 returns 1 and leaves the whole state as it was: nothing is appended to the bus trace
(no begin, write, end, requestFrom, read or delay event) and the buffer is unchanged. -/
theorem zero_length_no_activity (T : Transport) (E : EEPROM_AT24CX) (address bp write : Nat)
    (s : State) :
    read_writeBytes T E address 0 bp write s = some (1, s) ∧
    ∀ r, read_writeBytes T E address 0 bp write s = some r →
      r.1 = 1 ∧ r.2.bus = s.bus ∧ r.2.mem = s.mem := by
  have h : read_writeBytes T E address 0 bp write s = some (1, s) := by
    simp [read_writeBytes, whileLoop, whileStep]
  refine ⟨h, ?_⟩
  intro r hr
  rw [h] at hr
  cases hr
  exact ⟨rfl, rfl, rfl⟩

/-- C5. P8, retry exhaustion and fail-fast: when the loop of `read_writeBytes` reaches a test
with a non-zero remaining length and `read_writeBuffer` returns 0 on each of the 15 attempts
on the span dispatched there, `read_writePage` returns 0 for that span, `read_writeBytes`
returns 0, and the final state is the one right after the 15th attempt: exactly 15 calls were
logged for the span and nothing happens on the bus for a later span.  What earlier spans did
is in the state `v.s` the failing span starts from, and its bus trace is kept: the final
trace extends it. -/
theorem retry_exhaustion (T : Transport) (E : EEPROM_AT24CX) (address length bp write k : Nat)
    (s : State) (v : LoopVars)
    (hreach : loopState T E address write k ⟨length, 0, bp, s⟩ = some v)
    (hlen : v.length ≠ 0)
    (hfail : ∀ j, j < 15 →
      (read_writeBuffer T E ((address + v.offset) % 65536)
        (pageLength ((address + v.offset) % 65536) (v.length % 256)) v.bp write
        (attempts T E ((address + v.offset) % 65536)
          (pageLength ((address + v.offset) % 65536) (v.length % 256)) v.bp write j
          (v.s.logSpan ((address + v.offset) % 65536,
            pageLength ((address + v.offset) % 65536) (v.length % 256))))).1 = 0) :
    read_writePage T E ((address + v.offset) % 65536) (v.length % 256) v.bp write v.s
      = (0, attempts T E ((address + v.offset) % 65536)
          (pageLength ((address + v.offset) % 65536) (v.length % 256)) v.bp write 15
          (v.s.logSpan ((address + v.offset) % 65536,
            pageLength ((address + v.offset) % 65536) (v.length % 256)))) ∧
    read_writeBytes T E address length bp write s
      = some (0, attempts T E ((address + v.offset) % 65536)
          (pageLength ((address + v.offset) % 65536) (v.length % 256)) v.bp write 15
          (v.s.logSpan ((address + v.offset) % 65536,
            pageLength ((address + v.offset) % 65536) (v.length % 256)))) ∧
    (attempts T E ((address + v.offset) % 65536)
          (pageLength ((address + v.offset) % 65536) (v.length % 256)) v.bp write 15
          (v.s.logSpan ((address + v.offset) % 65536,
            pageLength ((address + v.offset) % 65536) (v.length % 256)))).calls
      = v.s.calls ++ List.replicate 15 ((address + v.offset) % 65536,
          pageLength ((address + v.offset) % 65536) (v.length % 256)) ∧
    ∃ tr, (attempts T E ((address + v.offset) % 65536)
          (pageLength ((address + v.offset) % 65536) (v.length % 256)) v.bp write 15
          (v.s.logSpan ((address + v.offset) % 65536,
            pageLength ((address + v.offset) % 65536) (v.length % 256)))).bus
      = v.s.bus ++ tr := by
  have hpage : read_writePage T E ((address + v.offset) % 65536) (v.length % 256) v.bp write v.s
      = (0, attempts T E ((address + v.offset) % 65536)
          (pageLength ((address + v.offset) % 65536) (v.length % 256)) v.bp write 15
          (v.s.logSpan ((address + v.offset) % 65536,
            pageLength ((address + v.offset) % 65536) (v.length % 256)))) := by
    unfold read_writePage
    exact retryLoop_exhaust T E _ _ v.bp write 15 _ hfail
  refine ⟨hpage, ?_, by simp [attempts_calls], attempts_bus T E _ _ v.bp write 15 _⟩
  obtain ⟨fuel, hf⟩ := read_writeBytes_loopState T E address length bp write k s v hreach
  rw [hf]
  simp only [whileLoop, whileStep, hlen, if_false, hpage, if_true]

/-- Retry exhaustion on the second span of a request whose first span succeeds. -/
theorem retry_exhaustion_witness :
    read_writePage (failingBus 1) ⟨80⟩ ((30 + 2) % 65536) (2 % 256) 2 1
        (read_writePage (failingBus 1) ⟨80⟩ 30 4 0 1 (State.init [7, 8, 9, 10])).2
      = (0, attempts (failingBus 1) ⟨80⟩ ((30 + 2) % 65536)
          (pageLength ((30 + 2) % 65536) (2 % 256)) 2 1 15
          ((read_writePage (failingBus 1) ⟨80⟩ 30 4 0 1
            (State.init [7, 8, 9, 10])).2.logSpan ((30 + 2) % 65536,
              pageLength ((30 + 2) % 65536) (2 % 256)))) ∧
    read_writeBytes (failingBus 1) ⟨80⟩ 30 4 0 1 (State.init [7, 8, 9, 10])
      = some (0, attempts (failingBus 1) ⟨80⟩ ((30 + 2) % 65536)
          (pageLength ((30 + 2) % 65536) (2 % 256)) 2 1 15
          ((read_writePage (failingBus 1) ⟨80⟩ 30 4 0 1
            (State.init [7, 8, 9, 10])).2.logSpan ((30 + 2) % 65536,
              pageLength ((30 + 2) % 65536) (2 % 256)))) ∧
    (attempts (failingBus 1) ⟨80⟩ ((30 + 2) % 65536)
          (pageLength ((30 + 2) % 65536) (2 % 256)) 2 1 15
          ((read_writePage (failingBus 1) ⟨80⟩ 30 4 0 1
            (State.init [7, 8, 9, 10])).2.logSpan ((30 + 2) % 65536,
              pageLength ((30 + 2) % 65536) (2 % 256)))).calls
      = (read_writePage (failingBus 1) ⟨80⟩ 30 4 0 1 (State.init [7, 8, 9, 10])).2.calls
        ++ List.replicate 15 ((30 + 2) % 65536, pageLength ((30 + 2) % 65536) (2 % 256)) ∧
    ∃ tr, (attempts (failingBus 1) ⟨80⟩ ((30 + 2) % 65536)
          (pageLength ((30 + 2) % 65536) (2 % 256)) 2 1 15
          ((read_writePage (failingBus 1) ⟨80⟩ 30 4 0 1
            (State.init [7, 8, 9, 10])).2.logSpan ((30 + 2) % 65536,
              pageLength ((30 + 2) % 65536) (2 % 256)))).bus
      = (read_writePage (failingBus 1) ⟨80⟩ 30 4 0 1 (State.init [7, 8, 9, 10])).2.bus
        ++ tr :=
  retry_exhaustion (failingBus 1) ⟨80⟩ 30 4 0 1 1 (State.init [7, 8, 9, 10])
    ⟨2, 2, 2, (read_writePage (failingBus 1) ⟨80⟩ 30 4 0 1 (State.init [7, 8, 9, 10])).2⟩
    (by decide) (by decide) (by decide)

/-- C6. P7, retry absorption: for a page span of non-zero length and `K < 15`, if
`read_writeBuffer` returns 0 on the first `K` attempts and non-zero on attempt `K + 1`, then
`read_writePage` returns the span length, and the state it leaves is the one after exactly
`K + 1` calls of `read_writeBuffer`: the call log has grown by `K + 1` entries for this
span. -/
theorem retry_absorption (T : Transport) (E : EEPROM_AT24CX) (address length bp write K : Nat)
    (s : State) (hK : K < 15) (hlen : pageLength address length ≠ 0)
    (hfail : ∀ j, j < K →
      (read_writeBuffer T E address (pageLength address length) bp write
        (attempts T E address (pageLength address length) bp write j
          (s.logSpan (address, pageLength address length)))).1 = 0)
    (hok : (read_writeBuffer T E address (pageLength address length) bp write
        (attempts T E address (pageLength address length) bp write K
          (s.logSpan (address, pageLength address length)))).1 ≠ 0) :
    read_writePage T E address length bp write s
      = (pageLength address length,
          attempts T E address (pageLength address length) bp write (K + 1)
            (s.logSpan (address, pageLength address length))) ∧
    (read_writePage T E address length bp write s).1 ≠ 0 ∧
    (read_writePage T E address length bp write s).2.calls
      = s.calls ++ List.replicate (K + 1) (address, pageLength address length) := by
  have h := retryLoop_absorb T E address (pageLength address length) bp write 15 K
    (s.logSpan (address, pageLength address length)) hK hfail hok
  have hres : (read_writeBuffer T E address (pageLength address length) bp write
        (attempts T E address (pageLength address length) bp write K
          (s.logSpan (address, pageLength address length)))).1 = pageLength address length := by
    rcases (read_writeBuffer_frame T E address (pageLength address length) bp write _).2.2.2.1
      with h1 | h1
    · exact absurd h1 hok
    · exact h1
  have heq : read_writePage T E address length bp write s
      = (pageLength address length,
          attempts T E address (pageLength address length) bp write (K + 1)
            (s.logSpan (address, pageLength address length))) := by
    unfold read_writePage
    simp only
    rw [h, hres]
  refine ⟨heq, ?_, ?_⟩
  · rw [heq]; exact hlen
  · rw [heq]; simp [attempts_calls]

/-- Retry absorption with two failed attempts before the success. -/
theorem retry_absorption_witness :
    read_writePage (busyBus 2) ⟨80⟩ 20 50 0 1 (State.init (List.range 50))
      = (pageLength 20 50,
          attempts (busyBus 2) ⟨80⟩ 20 (pageLength 20 50) 0 1 (2 + 1)
            ((State.init (List.range 50)).logSpan (20, pageLength 20 50))) ∧
    (read_writePage (busyBus 2) ⟨80⟩ 20 50 0 1 (State.init (List.range 50))).1 ≠ 0 ∧
    (read_writePage (busyBus 2) ⟨80⟩ 20 50 0 1 (State.init (List.range 50))).2.calls
      = (State.init (List.range 50)).calls ++ List.replicate (2 + 1) (20, pageLength 20 50) :=
  retry_absorption (busyBus 2) ⟨80⟩ 20 50 0 1 2 (State.init (List.range 50)) (by decide)
    (by decide) (by decide) (by decide)

/-- C7 (the code departs from the claim). P2 page containment fails at address 32 with
length 256: the span handed to `read_writeBuffer`, 15 times, is `(32, 0)`, and
`32 / 32 = 1` while `(32 + 0 - 1) / 32 = 0`. -/
theorem page_containment_fails_at_256 (T : Transport) (E : EEPROM_AT24CX) (bp write : Nat)
    (s : State) :
    ∃ s1, read_writeBytes T E 32 256 bp write s = some (0, s1) ∧
      s1.calls = s.calls ++ List.replicate 15 (32, 0) ∧
      (32, 0) ∈ s1.calls ∧ 32 / 32 ≠ (32 + 0 - 1) / 32 := by
  have hc : (attempts T E (32 % 65536) 0 bp write 15 (s.logSpan (32 % 65536, 0))).calls
      = s.calls ++ List.replicate 15 (32, 0) := by
    rw [attempts_calls]
    rfl
  refine ⟨_, read_writeBytes_256 T E 32 bp write s, hc, ?_, by decide⟩
  rw [hc]
  simp [List.replicate]

/-- C8 (the code departs from the claim). The span size rule fails at the first iteration of
a request of 256 bytes at address 0: the remaining length is 256 and the page has 32 bytes
left, so the rule gives `min 256 (32 - 0 mod 32) = 32`, but the length handed to
`read_writeBuffer`, 15 times, is 0. -/
theorem span_size_fails_at_256 (T : Transport) (E : EEPROM_AT24CX) (bp write : Nat)
    (s : State) :
    ∃ s1, read_writeBytes T E 0 256 bp write s = some (0, s1) ∧
      s1.calls = s.calls ++ List.replicate 15 (0, 0) ∧
      s1.spans = s.spans ++ [(0, 0)] ∧
      min 256 (32 - 0 % 32) = 32 := by
  refine ⟨_, read_writeBytes_256 T E 0 bp write s, ?_, ?_, by decide⟩
  · rw [attempts_calls]
    rfl
  · rw [attempts_spans]
    rfl

/-- C9. Scenario A: on a transport where every close succeeds, `read_writeBytes` at address
20 with length 50 returns 1 and dispatches exactly the three spans (20, 12), (32, 32),
(64, 6), in this order, each with a single `read_writeBuffer` call. -/
theorem scenario_A_spans (T : Transport) (hT : T.allSucceed) (E : EEPROM_AT24CX)
    (bp write : Nat) (s : State) :
    ∃ s1, read_writeBytes T E 20 50 bp write s = some (1, s1) ∧
      s1.spans = s.spans ++ [(20, 12), (32, 32), (64, 6)] ∧
      s1.calls = s.calls ++ [(20, 12), (32, 32), (64, 6)] := by
  have h1 := whileStep_ok_at T hT E 20 write 50 0 bp s 20 12 38 12
    (by decide) (by decide) (by decide) (by decide) (by decide)
  have h2 := whileStep_ok_at T hT E 20 write 38 12 (bp + 12)
    (read_writeBuffer T E 20 12 bp write (s.logSpan (20, 12))).2 32 32 6 44
    (by decide) (by decide) (by decide) (by decide) (by decide)
  have h3 := whileStep_ok_at T hT E 20 write 6 44 (bp + 12 + 32)
    (read_writeBuffer T E 32 32 (bp + 12) write
      ((read_writeBuffer T E 20 12 bp write (s.logSpan (20, 12))).2.logSpan (32, 32))).2
    64 6 0 50 (by decide) (by decide) (by decide) (by decide) (by decide)
  have hl := (loopState_step T E 20 write 2 _ _ h1).trans
    ((loopState_step T E 20 write 1 _ _ h2).trans (loopState_step T E 20 write 0 _ _ h3))
  simp only [loopState] at hl
  obtain ⟨fuel, hf⟩ := read_writeBytes_loopState T E 20 50 bp write 3 s _ hl
  rw [hf]
  simp only [whileLoop, whileStep, if_true]
  refine ⟨_, rfl, ?_, ?_⟩
  · simp [(read_writeBuffer_frame T E _ _ _ write _).2.1]
  · simp [(read_writeBuffer_frame T E _ _ _ write _).1]

/-- Scenario A on the transport that acknowledges everything. -/
theorem scenario_A_spans_witness :
    ∃ s1, read_writeBytes quietBus ⟨80⟩ 20 50 0 1 (State.init (List.range 50)) = some (1, s1) ∧
      s1.spans = (State.init (List.range 50)).spans ++ [(20, 12), (32, 32), (64, 6)] ∧
      s1.calls = (State.init (List.range 50)).calls ++ [(20, 12), (32, 32), (64, 6)] :=
  scenario_A_spans quietBus (fun _ => rfl) ⟨80⟩ 0 1 (State.init (List.range 50))

/-- C10. Short read: in read direction, when the address-selecting transaction of a span of
length `n` closes with success and the transport then makes only the `m < n` bytes `rx`
available, `read_writeBuffer` still returns `n`; it stores the `m` bytes in order in
`buff[0..m)` and leaves every other cell, `buff[m..n)` included, as it was; the bus trace
shows the `m` reads and nothing more.  Consequently `read_writeBytes` on such a span, when it
lies in one page, returns 1 with the same memory: `buff[m..n)` is never written. -/
theorem short_read (T : Transport) (E : EEPROM_AT24CX) (a n bp : Nat) (s : State)
    (rx : List Nat) (hm : rx.length < n) (hbuf : bp + n ≤ s.mem.length)
    (hclose : T.endTransmission (s.bus ++ txOpen E a) % 256 = 0)
    (havail : ∀ j, j < rx.length →
      T.available (s.bus ++ txOpen E a
        ++ [.endTransmission 0, .requestFrom E.m_deviceAddress n]
        ++ (rx.take j).map Event.read) ≠ 0)
    (hread : ∀ j (hj : j < rx.length),
      T.read (s.bus ++ txOpen E a ++ [.endTransmission 0, .requestFrom E.m_deviceAddress n]
        ++ (rx.take j).map Event.read) % 256 = rx[j])
    (hstop : T.available (s.bus ++ txOpen E a
        ++ [.endTransmission 0, .requestFrom E.m_deviceAddress n]
        ++ rx.map Event.read) = 0) :
    (read_writeBuffer T E a n bp 0 s).1 = n ∧
    (∀ k (hk : k < rx.length), (read_writeBuffer T E a n bp 0 s).2.mem.getD (bp + k) 0 = rx[k]) ∧
    (∀ q, q < bp ∨ bp + rx.length ≤ q →
      (read_writeBuffer T E a n bp 0 s).2.mem.getD q 0 = s.mem.getD q 0) ∧
    (read_writeBuffer T E a n bp 0 s).2.bus
      = s.bus ++ txOpen E a ++ [.endTransmission 0, .requestFrom E.m_deviceAddress n]
          ++ rx.map Event.read ++ [.delay 10] ∧
    (a < 65536 → n < 256 → a % 32 + n ≤ 32 →
      ∃ s1, read_writeBytes T E a n bp 0 s = some (1, s1) ∧
        s1.mem = (read_writeBuffer T E a n bp 0 s).2.mem ∧
        ∀ k, rx.length ≤ k → k < n → s1.mem.getD (bp + k) 0 = s.mem.getD (bp + k) 0) := by
  have hrw := read_writeBuffer_short T E a n bp s rx (Nat.le_of_lt hm) hclose havail hread hstop
  have hbyte : ∀ k (hk : k < rx.length), rx[k] % 256 = rx[k] := by
    intro k hk
    rw [← hread k hk, Nat.mod_mod]
  refine ⟨by rw [hrw], ?_, ?_, by rw [hrw], ?_⟩
  · intro k hk
    rw [hrw]
    simp only
    rw [storeBytes_inside rx s.mem bp k hk (by omega), hbyte k hk]
  · intro q hq
    rw [hrw]
    exact storeBytes_outside rx s.mem bp q hq
  · intro ha hn hpage
    have hn0 : n ≠ 0 := by omega
    have hpl : pageLength a n = n := by
      rw [pageLength_eq_min]; omega
    have hrw0 := read_writeBuffer_short T E a n bp (s.logSpan (a, n)) rx (Nat.le_of_lt hm)
      hclose havail hread hstop
    have hpage1 : read_writePage T E a n bp 0 s
        = (n, (read_writeBuffer T E a n bp 0 (s.logSpan (a, n))).2) := by
      unfold read_writePage
      simp only [hpl]
      have := retryLoop_absorb T E a n bp 0 15 0 (s.logSpan (a, n)) (by omega)
        (fun j hj => absurd hj (Nat.not_lt_zero j))
        (by simp only [attempts]; rw [hrw0]; exact hn0)
      simp only [attempts] at this
      rw [this, hrw0]
    have hstep : whileStep T E a 0 ⟨n, 0, bp, s⟩
        = .inr ⟨0, n, bp + n, (read_writeBuffer T E a n bp 0 (s.logSpan (a, n))).2⟩ := by
      have e1 : (a + 0) % 65536 = a := by rw [Nat.add_zero]; exact Nat.mod_eq_of_lt ha
      have e2 : n % 256 = n := Nat.mod_eq_of_lt hn
      have e3 : (n + 65536 - n) % 65536 = 0 := by
        rw [Nat.add_sub_cancel_left]
      have e4 : (0 + n) % 65536 = n := by
        rw [Nat.zero_add]; exact Nat.mod_eq_of_lt (by omega)
      simp only [whileStep, hn0, if_false, e1, e2, hpage1, e3, e4]
    obtain ⟨fuel, hf⟩ := read_writeBytes_loopState T E a n bp 0 1 s _
      ((loopState_step T E a 0 0 _ _ hstep).trans rfl)
    rw [hf]
    simp only [whileLoop, whileStep, if_true]
    refine ⟨_, rfl, ?_, ?_⟩
    · rw [hrw0, hrw]
      rfl
    · intro k hk1 hk2
      rw [hrw0]
      exact storeBytes_outside rx s.mem bp (bp + k) (Or.inr (by omega))

/-- A short read of two bytes for a span of four. -/
theorem short_read_witness :
    (read_writeBuffer (shortBus [5, 6]) ⟨80⟩ 64 4 0 0 (State.init [1, 2, 3, 4])).1 = 4 ∧
    (∀ k (hk : k < [5, 6].length),
      (read_writeBuffer (shortBus [5, 6]) ⟨80⟩ 64 4 0 0 (State.init [1, 2, 3, 4])).2.mem.getD
        (0 + k) 0 = [5, 6][k]) ∧
    (∀ q, q < 0 ∨ 0 + [5, 6].length ≤ q →
      (read_writeBuffer (shortBus [5, 6]) ⟨80⟩ 64 4 0 0 (State.init [1, 2, 3, 4])).2.mem.getD q 0
        = (State.init [1, 2, 3, 4]).mem.getD q 0) ∧
    (read_writeBuffer (shortBus [5, 6]) ⟨80⟩ 64 4 0 0 (State.init [1, 2, 3, 4])).2.bus
      = (State.init [1, 2, 3, 4]).bus ++ txOpen ⟨80⟩ 64
          ++ [.endTransmission 0, .requestFrom (EEPROM_AT24CX.mk 80).m_deviceAddress 4]
          ++ [5, 6].map Event.read ++ [.delay 10] ∧
    (64 < 65536 → 4 < 256 → 64 % 32 + 4 ≤ 32 →
      ∃ s1, read_writeBytes (shortBus [5, 6]) ⟨80⟩ 64 4 0 0 (State.init [1, 2, 3, 4])
          = some (1, s1) ∧
        s1.mem = (read_writeBuffer (shortBus [5, 6]) ⟨80⟩ 64 4 0 0
          (State.init [1, 2, 3, 4])).2.mem ∧
        ∀ k, [5, 6].length ≤ k → k < 4 →
          s1.mem.getD (0 + k) 0 = (State.init [1, 2, 3, 4]).mem.getD (0 + k) 0) :=
  short_read (shortBus [5, 6]) ⟨80⟩ 64 4 0 (State.init [1, 2, 3, 4]) [5, 6]
    (by decide) (by decide) (by decide) (by decide) (by decide) (by decide)

/-- C11. Scenario C, no range validation and 16-bit wrap: on a transport where every close
succeeds, `read_writeBytes` at address 65535 with length 2 returns 1 and dispatches the span
(65535, 1) and then the span (0, 1), whose start is `(65535 + 1) mod 2^16`; and no request is
rejected for its address range: for every address whatsoever and every length below 256 the
call returns 1. -/
theorem scenario_C_wrap (T : Transport) (hT : T.allSucceed) (E : EEPROM_AT24CX)
    (bp write : Nat) (s : State) :
    (∃ s1, read_writeBytes T E 65535 2 bp write s = some (1, s1) ∧
      s1.spans = s.spans ++ [(65535, 1), ((65535 + 1) % 65536, 1)] ∧
      s1.spans = s.spans ++ [(65535, 1), (0, 1)] ∧
      s1.calls = s.calls ++ [(65535, 1), (0, 1)]) ∧
    (∀ address length, length < 256 →
      ∃ s1, read_writeBytes T E address length bp write s = some (1, s1)) := by
  constructor
  · obtain ⟨s1, h1, h2, h3⟩ := whileLoop_greedy T hT E 65535 write (2 + 1) ⟨2, 0, bp, s⟩
      (by dsimp only; omega) (by dsimp only; omega) (by dsimp only; omega)
    have hg : greedySplit 65535 2 0 2 = [(65535, 1), (0, 1)] := by decide
    simp only [hg] at h2 h3
    exact ⟨s1, h1, h2, h2, h3⟩
  · intro address length hlen
    obtain ⟨s1, h1, _, _⟩ := whileLoop_greedy T hT E address write (length + 1)
      ⟨length, 0, bp, s⟩ hlen (by dsimp only; omega) (by dsimp only; omega)
    exact ⟨s1, h1⟩

/-- Scenario C on the transport that acknowledges everything. -/
theorem scenario_C_wrap_witness :
    (∃ s1, read_writeBytes quietBus ⟨80⟩ 65535 2 0 1 (State.init [7, 8]) = some (1, s1) ∧
      s1.spans = (State.init [7, 8]).spans ++ [(65535, 1), ((65535 + 1) % 65536, 1)] ∧
      s1.spans = (State.init [7, 8]).spans ++ [(65535, 1), (0, 1)] ∧
      s1.calls = (State.init [7, 8]).calls ++ [(65535, 1), (0, 1)]) ∧
    (∀ address length, length < 256 →
      ∃ s1, read_writeBytes quietBus ⟨80⟩ address length 0 1 (State.init [7, 8])
        = some (1, s1)) :=
  scenario_C_wrap quietBus (fun _ => rfl) ⟨80⟩ 0 1 (State.init [7, 8])

/-- C12. P3/P4 chunk containment: for every request made through `read_writeBytes` and
every transport, the call returns and, in the bus trace `tr` it appends, the writes that
directly follow any `beginTransmission` are at most 32, the two address bytes and at most
`30 = 32 - 2` data bytes, and every `requestFrom` asks for at most 32 bytes. -/
theorem chunk_containment (T : Transport) (E : EEPROM_AT24CX) (address length bp write : Nat)
    (s : State) :
    ∃ r tr, read_writeBytes T E address length bp write s = some r ∧
      r.2.bus = s.bus ++ tr ∧
      (∀ (pre : List Event) (d : Nat) (ws : List Nat) (post : List Event),
        tr = pre ++ .beginTransmission d :: (ws.map Event.write ++ post) →
        ws.length ≤ 2 + 30) ∧
      (∀ d n, Event.requestFrom d n ∈ tr → n ≤ 32) ∧
      chunksBounded 0 tr = true := by
  have hsome := read_writeBytes_isSome T E address length bp write s
  obtain ⟨r, hr⟩ := Option.isSome_iff_exists.1 hsome
  obtain ⟨tr, h1, _, h3⟩ := whileLoop_chunks T E address write (length + 1)
    ⟨length, 0, bp, s⟩ r hr
  refine ⟨r, tr, hr, h1, ?_, chunksBounded_request tr 0 h3, h3⟩
  intro pre d ws post htr
  rw [htr] at h3
  exact chunksBounded_tx pre post d ws 0 h3

/-- C13. Scenario B: for a write span of length 32 at a page-aligned 16-bit address `a`, on a
transport where every close succeeds, `read_writeBuffer` returns 32 and appends exactly this
to the bus trace: begin, write(a >> 8), write(a & 0xFF), the writes of `buff[0..29]`, end,
delay(10), begin, write((a+30) >> 8), write((a+30) & 0xFF), the writes of `buff[30]` and
`buff[31]`, end, delay(10): two chunks of 30 and 2 data bytes. -/
theorem scenario_B_trace (T : Transport) (hT : T.allSucceed) (E : EEPROM_AT24CX)
    (a bp write : Nat) (s : State) (ha : a < 65536) (hal : a % 32 = 0) (hw : write ≠ 0) :
    (read_writeBuffer T E a 32 bp write s).1 = 32 ∧
    (read_writeBuffer T E a 32 bp write s).2.bus
      = s.bus ++ ([.beginTransmission E.m_deviceAddress, .write (a >>> 8), .write (a &&& 0xFF)]
        ++ (List.range 30).map (fun j => Event.write (s.buff (bp + j)))
        ++ [.endTransmission 0, .delay 10,
            .beginTransmission E.m_deviceAddress,
            .write ((a + 30) >>> 8), .write ((a + 30) &&& 0xFF),
            .write (s.buff (bp + 30)), .write (s.buff (bp + 31)),
            .endTransmission 0, .delay 10]) := by
  have h1 : a / 256 % 256 = a / 256 := by omega
  have h2 : (a + 30) % 65536 = a + 30 := by omega
  have h3 : (a + 30) / 256 % 256 = (a + 30) / 256 := by omega
  rw [read_writeBuffer_write T E a 32 bp write hw]
  refine ⟨writeSeg_ok T hT E a 32 bp s, ?_⟩
  have hT0 := fun tr => hT tr
  simp only [writeSeg, hT0, word_hi, word_lo, h2, State.buff]
  simp [txOpen, dataWrites, h1, h3, List.range_eq_range', List.range']

/-- Scenario B at address 64 on the transport that acknowledges everything. -/
theorem scenario_B_trace_witness :
    (read_writeBuffer quietBus ⟨80⟩ 64 32 0 1 (State.init (List.range 32))).1 = 32 ∧
    (read_writeBuffer quietBus ⟨80⟩ 64 32 0 1 (State.init (List.range 32))).2.bus
      = (State.init (List.range 32)).bus
        ++ ([.beginTransmission (EEPROM_AT24CX.mk 80).m_deviceAddress, .write (64 >>> 8),
            .write (64 &&& 0xFF)]
        ++ (List.range 30).map (fun j => Event.write ((State.init (List.range 32)).buff (0 + j)))
        ++ [.endTransmission 0, .delay 10,
            .beginTransmission (EEPROM_AT24CX.mk 80).m_deviceAddress,
            .write ((64 + 30) >>> 8), .write ((64 + 30) &&& 0xFF),
            .write ((State.init (List.range 32)).buff (0 + 30)),
            .write ((State.init (List.range 32)).buff (0 + 31)),
            .endTransmission 0, .delay 10]) :=
  scenario_B_trace quietBus (fun _ => rfl) ⟨80⟩ 64 0 1 (State.init (List.range 32))
    (by decide) (by decide) (by decide)

/-- C14. Result of the Bus Transfer Primitive: for every address, span length `n`, buffer,
direction and transport, `read_writeBuffer` returns 0 if and only if `n = 0` or some
`endTransmission` in the bus segment of the call reported a non-zero status; otherwise it
returns exactly `n`.  This holds for every `n`, the lengths up to 32 included. -/
theorem result_zero_iff_close_failed (T : Transport) (E : EEPROM_AT24CX)
    (a n bp write : Nat) (s : State) :
    ∃ seg, (read_writeBuffer T E a n bp write s).2.bus = s.bus ++ seg ∧
      ((read_writeBuffer T E a n bp write s).1 = 0 ↔
        (n = 0 ∨ ∃ r, r ≠ 0 ∧ Event.endTransmission r ∈ seg)) ∧
      ((read_writeBuffer T E a n bp write s).1 ≠ 0 →
        (read_writeBuffer T E a n bp write s).1 = n) := by
  have hlast : (read_writeBuffer T E a n bp write s).1 ≠ 0 →
      (read_writeBuffer T E a n bp write s).1 = n := by
    intro h
    rcases (read_writeBuffer_frame T E a n bp write s).2.2.2.1 with h1 | h1
    · exact absurd h1 h
    · exact h1
  by_cases hw : write = 0
  · subst hw
    obtain ⟨rs, _, hres, hbus⟩ := read_writeBuffer_read T E a n bp s
    refine ⟨_, hbus, ?_, hlast⟩
    rw [hres]
    have hopen := no_end_in_open E a
    by_cases hr : T.endTransmission (s.bus ++ txOpen E a) % 256 = 0
    · simp only [hr, ne_eq, not_true_eq_false, if_false]
      constructor
      · intro h; exact Or.inl h
      · rintro (h | ⟨r, hr0, hmem⟩)
        · exact h
        · simp [hopen] at hmem
          exact absurd hmem hr0
    · simp only [hr, ne_eq, not_false_eq_true, if_true, true_iff]
      exact Or.inr ⟨_, hr, by simp⟩
  · have hrw := read_writeBuffer_write T E a n bp write hw s
    refine ⟨(writeSeg T E a n bp s).2, by rw [hrw], ?_, hlast⟩
    rw [hrw]
    simp only
    have hopen := no_end_in_open E a
    have hopen2 := no_end_in_open E ((a + 30) % 65536)
    rcases writeSeg_cases T E a n bp s with ⟨_, r, h1, h⟩ | ⟨_, r1, hr1, _, h1, h⟩ |
      ⟨hn, _, r2, h1, h⟩
    · rw [h1, h]
      by_cases hr : r = 0
      · subst hr
        simp [hopen]
      · simp only [ne_eq, hr, not_false_eq_true, if_true, true_iff]
        exact Or.inr ⟨r, hr, by simp⟩
    · rw [h1, h]
      simp only [true_iff]
      exact Or.inr ⟨r1, hr1, by simp⟩
    · rw [h1, h]
      by_cases hr : r2 = 0
      · subst hr
        have : n ≠ 0 := by omega
        simp [hopen, hopen2, this]
      · simp only [ne_eq, hr, not_false_eq_true, if_true, true_iff]
        exact Or.inr ⟨r2, hr, by simp⟩

/-- C15. Write-cycle delay: in write direction, for every span and every transport, whatever
stands in the bus segment of a `read_writeBuffer` call right after an `endTransmission` is
`delay(10)`, and there always is something: the delay comes before any new
`beginTransmission` and before the return. -/
theorem write_cycle_delay (T : Transport) (E : EEPROM_AT24CX) (a n bp write : Nat) (s : State)
    (hw : write ≠ 0) :
    ∃ seg, (read_writeBuffer T E a n bp write s).2.bus = s.bus ++ seg ∧
      (∀ (i r : Nat), seg[i]? = some (.endTransmission r) → seg[i + 1]? = some (.delay 10)) ∧
      (∃ r, Event.endTransmission r ∈ seg) := by
  refine ⟨(writeSeg T E a n bp s).2, by rw [read_writeBuffer_write T E a n bp write hw],
    delayAfterClose_spec _ (writeSeg_delay T E a n bp s), ?_⟩
  rcases writeSeg_cases T E a n bp s with ⟨_, r, _, h⟩ | ⟨_, r1, _, _, _, h⟩ | ⟨_, _, r2, _, h⟩
  · exact ⟨r, by rw [h]; simp⟩
  · exact ⟨r1, by rw [h]; simp⟩
  · exact ⟨r2, by rw [h]; simp⟩

/-- The write cycle delay on a full page written to a busy device. -/
theorem write_cycle_delay_witness :
    ∃ seg, (read_writeBuffer (busyBus 1) ⟨80⟩ 64 32 0 1 (State.init (List.range 32))).2.bus
        = (State.init (List.range 32)).bus ++ seg ∧
      (∀ (i r : Nat), seg[i]? = some (.endTransmission r) → seg[i + 1]? = some (.delay 10)) ∧
      (∃ r, Event.endTransmission r ∈ seg) :=
  write_cycle_delay (busyBus 1) ⟨80⟩ 64 32 0 1 (State.init (List.range 32)) (by decide)

/-- C16. Requests of 256 bytes or more always fail: for every address, every 16-bit length of
at least 256, every buffer, direction and transport, `read_writeBytes` returns 0.  On a
transport where every close succeeds the call ends on a span of length 0, the remaining
length having reached a non-zero multiple of 256 that the `uint8_t` parameter of
`read_writePage` receives as 0: that span is the last one logged and the last 15 calls of
`read_writeBuffer` are for it. -/
theorem large_requests_fail (T : Transport) (E : EEPROM_AT24CX) (address length bp write : Nat)
    (s : State) (h256 : 256 ≤ length) (h16 : length < 65536) :
    ∃ s1, read_writeBytes T E address length bp write s = some (0, s1) ∧
      (T.allSucceed → ∃ sp cl a1, s1.spans = sp ++ [(a1, 0)] ∧
        s1.calls = cl ++ List.replicate 15 (a1, 0)) := by
  have hsome := read_writeBytes_isSome T E address length bp write s
  obtain ⟨r, hr⟩ := Option.isSome_iff_exists.1 hsome
  obtain ⟨h1, h2⟩ := whileLoop_large T E address write (length + 1) ⟨length, 0, bp, s⟩ r
    h256 h16 hr
  refine ⟨r.2, ?_, h2⟩
  rw [hr, ← h1]

/-- A request of 300 bytes on the transport that acknowledges everything. -/
theorem large_requests_fail_witness :
    ∃ s1, read_writeBytes quietBus ⟨80⟩ 32 300 0 1 (State.init []) = some (0, s1) ∧
      (quietBus.allSucceed → ∃ sp cl a1, s1.spans = sp ++ [(a1, 0)] ∧
        s1.calls = cl ++ List.replicate 15 (a1, 0)) :=
  large_requests_fail quietBus ⟨80⟩ 32 300 0 1 (State.init []) (by decide) (by decide)

/-- C17. Correct splitting below 256 bytes: for every address and every length from 1 to 255,
on a transport where every close succeeds, `read_writeBytes` returns 1 and the spans `sp` it
dispatches, one `read_writeBuffer` call each, are the greedy page split: span `i` starts at
the address plus the sum of the earlier span lengths, modulo `2^16`, and has the length
`min(remaining, 32 - start mod 32)`; every span has between 1 and 32 bytes and the lengths
sum to `length`. -/
theorem correct_splitting_below_256 (T : Transport) (hT : T.allSucceed) (E : EEPROM_AT24CX)
    (address length bp write : Nat) (s : State) (h1 : 1 ≤ length) (h255 : length ≤ 255) :
    ∃ s1 sp, read_writeBytes T E address length bp write s = some (1, s1) ∧
      s1.spans = s.spans ++ sp ∧ s1.calls = s.calls ++ sp ∧
      sp = greedySplit address length 0 length ∧
      (∀ (i : Nat) (p : Nat × Nat), sp[i]? = some p →
        p.1 = (address + ((sp.take i).map Prod.snd).sum) % 65536 ∧
        p.2 = min (length - ((sp.take i).map Prod.snd).sum) (32 - p.1 % 32)) ∧
      (∀ p, p ∈ sp → 1 ≤ p.2 ∧ p.2 ≤ 32) ∧
      (sp.map Prod.snd).sum = length ∧ sp ≠ [] := by
  obtain ⟨s1, hr, hsp, hcl⟩ := whileLoop_greedy T hT E address write (length + 1)
    ⟨length, 0, bp, s⟩ (by dsimp only; omega) (by dsimp only; omega) (by dsimp only; omega)
  obtain ⟨hsum, hlen⟩ := greedySplit_lengths address length 0 length (le_refl _)
  refine ⟨s1, greedySplit address length 0 length, hr, hsp, hcl, rfl, ?_, hlen, hsum, ?_⟩
  · intro i p hp
    have := greedySplit_index address length 0 length i p hp
    simpa using this
  · intro hnil
    rw [hnil] at hsum
    simp at hsum
    omega

/-- The greedy split of Scenario A, on the transport that acknowledges everything. -/
theorem correct_splitting_below_256_witness :
    ∃ s1 sp, read_writeBytes quietBus ⟨80⟩ 20 50 0 0 (State.init []) = some (1, s1) ∧
      s1.spans = (State.init []).spans ++ sp ∧ s1.calls = (State.init []).calls ++ sp ∧
      sp = greedySplit 20 50 0 50 ∧
      (∀ (i : Nat) (p : Nat × Nat), sp[i]? = some p →
        p.1 = (20 + ((sp.take i).map Prod.snd).sum) % 65536 ∧
        p.2 = min (50 - ((sp.take i).map Prod.snd).sum) (32 - p.1 % 32)) ∧
      (∀ p, p ∈ sp → 1 ≤ p.2 ∧ p.2 ≤ 32) ∧
      (sp.map Prod.snd).sum = 50 ∧ sp ≠ [] :=
  correct_splitting_below_256 quietBus (fun _ => rfl) ⟨80⟩ 20 50 0 0 (State.init [])
    (by decide) (by decide)

/-- C18. Termination without underflow: for every address, 16-bit length, buffer, direction
and transport, `read_writeBytes` returns; it makes at most `length` iterations, logs one span
per iteration and at most 15 calls of `read_writeBuffer` per iteration; and at every test of
the loop that it reaches with a non-zero remaining length, `read_writePage` reports either 0,
and the call returns 0 at once, or a number between 1 and `min(32, remaining)`, and then the
new 16-bit remaining length is the old one minus that number, without wrap, and strictly
smaller. -/
theorem termination_without_underflow (T : Transport) (E : EEPROM_AT24CX)
    (address length bp write : Nat) (s : State) (h16 : length < 65536) :
    (∃ r iters, read_writeBytes T E address length bp write s = some r ∧
      iters ≤ length ∧ r.2.spans.length = s.spans.length + iters ∧
      r.2.calls.length ≤ s.calls.length + 15 * iters ∧
      s.calls.length ≤ r.2.calls.length) ∧
    (∀ k v, loopState T E address write k ⟨length, 0, bp, s⟩ = some v → v.length ≠ 0 →
      ((read_writePage T E ((address + v.offset) % 65536) (v.length % 256) v.bp write
          v.s).1 = 0 ∧
        whileStep T E address write v
          = .inl (0, (read_writePage T E ((address + v.offset) % 65536) (v.length % 256) v.bp
              write v.s).2) ∧
        ∃ s1, read_writeBytes T E address length bp write s = some (0, s1)) ∨
      (1 ≤ (read_writePage T E ((address + v.offset) % 65536) (v.length % 256) v.bp write
          v.s).1 ∧
        (read_writePage T E ((address + v.offset) % 65536) (v.length % 256) v.bp write v.s).1
          ≤ min 32 v.length ∧
        ∃ v1, whileStep T E address write v = .inr v1 ∧
          v1.length = (v.length + 65536
            - (read_writePage T E ((address + v.offset) % 65536) (v.length % 256) v.bp write
                v.s).1) % 65536 ∧
          v1.length = v.length
            - (read_writePage T E ((address + v.offset) % 65536) (v.length % 256) v.bp write
                v.s).1 ∧
          v1.length < v.length)) := by
  constructor
  · have hsome := read_writeBytes_isSome T E address length bp write s
    obtain ⟨r, hr⟩ := Option.isSome_iff_exists.1 hsome
    obtain ⟨iters, h1, h2, h3, h4⟩ := whileLoop_counts T E address write (length + 1)
      ⟨length, 0, bp, s⟩ r hr
    exact ⟨r, iters, hr, h1, h2, h3, h4⟩
  · intro k v hreach h0
    have hlen := loopState_length T E address write k _ v hreach
    dsimp only at hlen
    rcases whileStep_progress T E address write v h0 (by omega) with ⟨h1, h2⟩ | h
    · left
      refine ⟨h1, h2, ?_⟩
      obtain ⟨fuel, hf⟩ := read_writeBytes_loopState T E address length bp write k s v hreach
      rw [hf]
      simp only [whileLoop, h2]
      exact ⟨_, rfl⟩
    · right
      exact h

/-- Termination and the iteration bounds on a request that fails on its second span. -/
theorem termination_without_underflow_witness :
    (∃ r iters, read_writeBytes (failingBus 1) ⟨80⟩ 30 4 0 1 (State.init [7, 8, 9, 10]) = some r ∧
      iters ≤ 4 ∧ r.2.spans.length = (State.init [7, 8, 9, 10]).spans.length + iters ∧
      r.2.calls.length ≤ (State.init [7, 8, 9, 10]).calls.length + 15 * iters ∧
      (State.init [7, 8, 9, 10]).calls.length ≤ r.2.calls.length) ∧
    (∀ k v, loopState (failingBus 1) ⟨80⟩ 30 1 k ⟨4, 0, 0, State.init [7, 8, 9, 10]⟩ = some v →
      v.length ≠ 0 →
      ((read_writePage (failingBus 1) ⟨80⟩ ((30 + v.offset) % 65536) (v.length % 256) v.bp 1
          v.s).1 = 0 ∧
        whileStep (failingBus 1) ⟨80⟩ 30 1 v
          = .inl (0, (read_writePage (failingBus 1) ⟨80⟩ ((30 + v.offset) % 65536)
              (v.length % 256) v.bp 1 v.s).2) ∧
        ∃ s1, read_writeBytes (failingBus 1) ⟨80⟩ 30 4 0 1 (State.init [7, 8, 9, 10])
          = some (0, s1)) ∨
      (1 ≤ (read_writePage (failingBus 1) ⟨80⟩ ((30 + v.offset) % 65536) (v.length % 256) v.bp 1
          v.s).1 ∧
        (read_writePage (failingBus 1) ⟨80⟩ ((30 + v.offset) % 65536) (v.length % 256) v.bp 1
          v.s).1 ≤ min 32 v.length ∧
        ∃ v1, whileStep (failingBus 1) ⟨80⟩ 30 1 v = .inr v1 ∧
          v1.length = (v.length + 65536
            - (read_writePage (failingBus 1) ⟨80⟩ ((30 + v.offset) % 65536) (v.length % 256)
                v.bp 1 v.s).1) % 65536 ∧
          v1.length = v.length
            - (read_writePage (failingBus 1) ⟨80⟩ ((30 + v.offset) % 65536) (v.length % 256)
                v.bp 1 v.s).1 ∧
          v1.length < v.length)) :=
  termination_without_underflow (failingBus 1) ⟨80⟩ 30 4 0 1 (State.init [7, 8, 9, 10])
    (by decide)

/-- C19. Transaction left open on a chunk-boundary failure: in write direction with `n > 30`,
when the close of the first chunk of 30 bytes reports failure, `read_writeBuffer` returns 0
and the bus segment of the call ends with the second `beginTransmission` and the high and low
byte of the advanced address `address + 30`: that transaction is never closed and no data
byte after `buff[29]` is sent.  On every other path no transaction is left open: each
`beginTransmission` of the segment is followed by its `endTransmission` before the next one
and before the return. -/
theorem open_transaction_on_chunk_failure (T : Transport) (E : EEPROM_AT24CX)
    (a n bp write : Nat) (s : State) :
    ∃ seg, (read_writeBuffer T E a n bp write s).2.bus = s.bus ++ seg ∧
      ((write ≠ 0 ∧ 30 < n ∧
          T.endTransmission (s.bus ++ (txOpen E a ++ dataWrites s.mem bp 0 30)) % 256 ≠ 0) →
        (read_writeBuffer T E a n bp write s).1 = 0 ∧
        seg = [.beginTransmission E.m_deviceAddress, .write ((a >>> 8) % 256),
              .write (a &&& 0xFF)]
          ++ (List.range 30).map (fun j => Event.write (s.buff (bp + j)))
          ++ [.endTransmission
                (T.endTransmission (s.bus ++ (txOpen E a ++ dataWrites s.mem bp 0 30)) % 256),
              .delay 10,
              .beginTransmission E.m_deviceAddress,
              .write (((a + 30) % 65536) >>> 8),
              .write (((a + 30) % 65536) &&& 0xFF)] ∧
        allClosed false seg = false) ∧
      (¬ (write ≠ 0 ∧ 30 < n ∧
          T.endTransmission (s.bus ++ (txOpen E a ++ dataWrites s.mem bp 0 30)) % 256 ≠ 0) →
        allClosed false seg = true) := by
  by_cases hw : write = 0
  · subst hw
    obtain ⟨rs, _, _, hbus⟩ := read_writeBuffer_read T E a n bp s
    refine ⟨_, hbus, fun h => absurd rfl h.1, fun _ => ?_⟩
    simp only [List.append_assoc, List.cons_append, List.nil_append]
    rw [allClosed_open]
    simp only [allClosed_cons]
    rw [allClosed_reads]
    rfl
  · have hrw := read_writeBuffer_write T E a n bp write hw s
    refine ⟨(writeSeg T E a n bp s).2, by rw [hrw], ?_, ?_⟩
    · rintro ⟨_, hn, hr⟩
      have hx : (a + 30) % 65536 / 256 % 256 = (a + 30) % 65536 / 256 := by omega
      rw [hrw]
      have hn30 : ¬ n ≤ 30 := by omega
      simp only [writeSeg, hn30, if_false, hr, ne_eq, not_false_eq_true, if_true]
      refine ⟨trivial, ?_, ?_⟩
      · simp [txOpen, dataWrites, word_hi, word_lo, hx, List.range_eq_range', State.buff]
      · simp only [dataWrites_eq, List.append_assoc, List.cons_append, List.nil_append]
        rw [allClosed_open, allClosed_writes]
        simp only [allClosed_cons]
        rw [← List.append_nil (txOpen E _), allClosed_open]
        rfl
    · intro hnot
      rcases writeSeg_cases T E a n bp s with ⟨_, r, _, h⟩ | ⟨hn, r1, hr1, hr1eq, _, h⟩ |
        ⟨_, _, r2, _, h⟩
      · rw [h]
        simp only [List.append_assoc, List.cons_append, List.nil_append]
        rw [allClosed_open, allClosed_writes]
        rfl
      · exfalso
        apply hnot
        refine ⟨hw, hn, ?_⟩
        rw [dataWrites_eq, ← hr1eq]
        exact hr1
      · rw [h]
        simp only [List.append_assoc, List.cons_append, List.nil_append]
        rw [allClosed_open, allClosed_writes]
        simp only [allClosed_cons]
        rw [allClosed_open, allClosed_writes]
        rfl

/-- The failing path of the chunk boundary on a device that refuses the first close. -/
theorem open_transaction_on_chunk_failure_witness :
    ∃ seg, (read_writeBuffer (busyBus 1) ⟨80⟩ 64 32 0 1 (State.init (List.range 32))).2.bus
        = (State.init (List.range 32)).bus ++ seg ∧
      (read_writeBuffer (busyBus 1) ⟨80⟩ 64 32 0 1 (State.init (List.range 32))).1 = 0 ∧
      allClosed false seg = false := by
  obtain ⟨seg, h1, h2, _⟩ := open_transaction_on_chunk_failure (busyBus 1) ⟨80⟩ 64 32 0 1
    (State.init (List.range 32))
  have h3 := h2 ⟨by decide, by decide, by decide⟩
  exact ⟨seg, h1, h3.1, h3.2.2⟩

end EEPROM
